import Mathlib

/-!
Verification of the Clarity value binary codec and the BNS (Blockchain Naming
System) transaction builders of the stacks.js repository, as a shallow
embedding in Lean 4.

Bytes are modelled as `Nat` (with well-formedness predicates bounding them by
256 where the source writes raw caller-supplied buffers), byte strings as
`List Nat`, JavaScript strings as Lean `String` (encoded to UTF-8 bytes where
the source calls `Buffer.from(string)`), and fallible operations as
`Except String`.
-/

set_option maxRecDepth 4000

namespace StacksJs

/-! ## Byte-level utilities -/

/-- Big-endian fixed-width encoding of a natural number: `natToBE w n` is the
`w`-byte big-endian representation of `n % 256^w`. Models the 16-byte integer
and 4-byte length writes of the Clarity serializer. -/
def natToBE : Nat → Nat → List Nat
  | 0, _ => []
  | w + 1, n => natToBE w (n / 256) ++ [n % 256]

/-- Big-endian interpretation of a byte string as a natural number. Models the
reads of fixed-width integers and length fields by the deserializer. -/
def bytesToNat (bs : List Nat) : Nat :=
  bs.foldl (fun acc b => acc * 256 + b) 0

/-- `readN n bs` consumes exactly `n` bytes from the front of `bs`, failing if
fewer remain. Models the bounds-checked `BufferReader.readBuffer(n)`. -/
def readN : Nat → List Nat → Option (List Nat × List Nat)
  | 0, bs => some ([], bs)
  | _ + 1, [] => none
  | n + 1, b :: bs => (readN n bs).map fun p => (b :: p.1, p.2)

/-- Byte-lexicographic order on byte strings (shorter-is-less-if-prefix),
the order of `Buffer.compare` used to sort tuple keys. -/
def keyLe : List Nat → List Nat → Bool
  | [], _ => true
  | _ :: _, [] => false
  | a :: as, b :: bs => if a < b then true else if b < a then false else keyLe as bs

/-- UTF-8 encoding of a single character, as byte values. -/
def utf8EncodeCharNat (c : Char) : List Nat :=
  let n := c.toNat
  if n < 0x80 then [n]
  else if n < 0x800 then [0xC0 ||| (n >>> 6), 0x80 ||| (n &&& 0x3F)]
  else if n < 0x10000 then
    [0xE0 ||| (n >>> 12), 0x80 ||| ((n >>> 6) &&& 0x3F), 0x80 ||| (n &&& 0x3F)]
  else
    [0xF0 ||| (n >>> 18), 0x80 ||| ((n >>> 12) &&& 0x3F),
     0x80 ||| ((n >>> 6) &&& 0x3F), 0x80 ||| (n &&& 0x3F)]

/-- The UTF-8 bytes of a string. Models JavaScript `Buffer.from(string)`. -/
def utf8Bytes (s : String) : List Nat :=
  (s.data.map utf8EncodeCharNat).flatten

/-- Models JavaScript `String.prototype.startsWith(p)`. -/
def strStartsWith (s p : String) : Bool :=
  p.data.isPrefixOf s.data

/-- Models JavaScript string truthiness for an optional string option:
`undefined` and the empty string are falsy. -/
def strTruthy : Option String → Bool
  | none => false
  | some s => s ≠ ""

/-- Models JavaScript `String.prototype.split('.')` (single-character
separator): `"" ↦ [""]`, separators at the ends produce empty fragments. -/
def splitDotChars : List Char → List (List Char)
  | [] => [[]]
  | c :: cs =>
    let r := splitDotChars cs
    if c = '.' then [] :: r
    else
      match r with
      | [] => [[c]]
      | x :: xs => (c :: x) :: xs

/-- `fqdn.split('.')` as a list of strings. -/
def splitDot (s : String) : List String :=
  (splitDotChars s.data).map (fun l => ⟨l⟩)

/-! ## Clarity value model

The Clarity value implementation (`@stacks/transactions`, `src/clarity`) is
not part of the sources under verification here, only its test suite is.
Modelled from the spec: the closed tagged union of §3 with its sixteen
variants (tags 0x00–0x0e). Tuple data, which the source keeps as a
JavaScript object with string keys, is modelled as an association list of
(key bytes, value) pairs in insertion order; the serializer sorts it. -/

inductive ClarityValue where
  | intCV (n : Int)
  | uintCV (n : Nat)
  | bufferCV (bytes : List Nat)
  | trueCV
  | falseCV
  | standardPrincipalCV (version : Nat) (hash : List Nat)
  | contractPrincipalCV (version : Nat) (hash : List Nat) (contractName : List Nat)
  | responseOkCV (v : ClarityValue)
  | responseErrorCV (v : ClarityValue)
  | noneCV
  | someCV (v : ClarityValue)
  | listCV (l : List ClarityValue)
  | tupleCV (entries : List (List Nat × ClarityValue))
  | stringAsciiCV (s : List Nat)
  | stringUtf8CV (s : List Nat)

/-- The entry order used when serializing a tuple: non-strict
byte-lexicographic comparison of the keys of keyed pairs. -/
def keyFstLe {β : Type} (a b : List Nat × β) : Prop :=
  keyLe a.1 b.1 = true

instance {β : Type} : DecidableRel (keyFstLe (β := β)) := fun a b => by
  unfold keyFstLe; infer_instance

instance {β : Type} : IsTotal (List Nat × β) keyFstLe where
  total a b := by
    show keyLe a.1 b.1 = true ∨ keyLe b.1 a.1 = true
    generalize a.1 = x
    generalize b.1 = y
    induction x generalizing y with
    | nil => left; rfl
    | cons c cs ih =>
      cases y with
      | nil => right; rfl
      | cons d ds =>
        simp only [keyLe]
        rcases Nat.lt_trichotomy c d with h | h | h
        · left; simp [h]
        · subst h; simpa using ih ds
        · right; simp [h, Nat.lt_asymm h]

instance {β : Type} : IsTrans (List Nat × β) keyFstLe where
  trans a b c hab hbc := by
    show keyLe a.1 c.1 = true
    replace hab : keyLe a.1 b.1 = true := hab
    replace hbc : keyLe b.1 c.1 = true := hbc
    generalize hx : a.1 = x at hab
    generalize hy : b.1 = y at hab hbc
    generalize hz : c.1 = z at hbc
    clear hx hy hz
    induction x generalizing y z with
    | nil => rfl
    | cons p ps ih =>
      cases y with
      | nil => simp [keyLe] at hab
      | cons q qs =>
        cases z with
        | nil => simp [keyLe] at hbc
        | cons r rs =>
          simp only [keyLe] at hab hbc ⊢
          split_ifs at hab hbc ⊢ <;>
            first
              | rfl
              | omega
              | exact ih _ hab _ hbc

/-- Sort keyed pairs by key bytes, the canonical serialization order
(modelled from the spec: "Tuple serialization must first sort entries by key
bytes … before writing, independent of insertion order"). -/
def sortByKey {β : Type} (ps : List (List Nat × β)) : List (List Nat × β) :=
  List.insertionSort keyFstLe ps

/-- Sort tuple entries by key bytes. -/
def sortEntries (es : List (List Nat × ClarityValue)) : List (List Nat × ClarityValue) :=
  sortByKey es

/-- Sort (key, serialized value bytes) pairs by key and write each as
1-byte key length, key bytes, then the value bytes. -/
def flattenSortedEntries (ps : List (List Nat × List Nat)) : List Nat :=
  (sortByKey ps).flatMap fun p => p.1.length :: (p.1 ++ p.2)

/-- Two's-complement 128-bit image of a signed integer, as a natural number. -/
def intToTwos (n : Int) : Nat :=
  (n % (2 ^ 128 : Int)).toNat

/-- Reinterpret a natural number below `2^128` as a signed two's-complement
128-bit integer. -/
def twosToInt (x : Nat) : Int :=
  if x < 2 ^ 127 then (x : Int) else (x : Int) - 2 ^ 128

/-! Modelled from the spec: `serializeCV` (§3 table and §4.2), whose
implementation lives outside the sources under verification. Each variant
writes its 1-byte tag followed by the payload; composites recurse depth-first
pre-order; tuples sort entries by key bytes before writing. -/

mutual

/-- Serialize a Clarity value to its wire bytes per the §3 table. -/
def serializeCV : ClarityValue → List Nat
  | .intCV n => 0x00 :: natToBE 16 (intToTwos n)
  | .uintCV n => 0x01 :: natToBE 16 n
  | .bufferCV bytes => 0x02 :: (natToBE 4 bytes.length ++ bytes)
  | .trueCV => [0x03]
  | .falseCV => [0x04]
  | .standardPrincipalCV version hash => 0x05 :: version :: hash
  | .contractPrincipalCV version hash contractName =>
      0x06 :: version :: (hash ++ contractName.length :: contractName)
  | .responseOkCV v => 0x07 :: serializeCV v
  | .responseErrorCV v => 0x08 :: serializeCV v
  | .noneCV => [0x09]
  | .someCV v => 0x0a :: serializeCV v
  | .listCV l => 0x0b :: (natToBE 4 l.length ++ serializeList l)
  | .tupleCV es => 0x0c :: (natToBE 4 es.length ++ flattenSortedEntries (serializeEntryValues es))
  | .stringAsciiCV s => 0x0d :: (natToBE 4 s.length ++ s)
  | .stringUtf8CV s => 0x0e :: (natToBE 4 s.length ++ s)

/-- Serialize the elements of a list value, in order. -/
def serializeList : List ClarityValue → List Nat
  | [] => []
  | v :: vs => serializeCV v ++ serializeList vs

/-- Serialize the value of each tuple entry, keeping its key and order. -/
def serializeEntryValues : List (List Nat × ClarityValue) → List (List Nat × List Nat)
  | [] => []
  | e :: es => (e.1, serializeCV e.2) :: serializeEntryValues es

end

mutual

/-- Well-formedness of a constructible value: integers fit in 128 bits,
lengths fit their length-prefix fields, and raw payload entries are bytes
(ASCII strings consist of bytes below 0x80, which the decoder enforces). -/
def WF : ClarityValue → Bool
  | .intCV n => decide (-(2 ^ 127) ≤ n) && decide (n < 2 ^ 127)
  | .uintCV n => decide (n < 2 ^ 128)
  | .bufferCV bytes => decide (bytes.length < 2 ^ 32) && bytes.all (· < 256)
  | .trueCV => true
  | .falseCV => true
  | .standardPrincipalCV version hash =>
      decide (version < 256) && decide (hash.length = 20) && hash.all (· < 256)
  | .contractPrincipalCV version hash contractName =>
      decide (version < 256) && decide (hash.length = 20) && hash.all (· < 256) &&
      decide (contractName.length < 256) && contractName.all (· < 256)
  | .responseOkCV v => WF v
  | .responseErrorCV v => WF v
  | .noneCV => true
  | .someCV v => WF v
  | .listCV l => decide (l.length < 2 ^ 32) && WFList l
  | .tupleCV es => decide (es.length < 2 ^ 32) && WFEntries es
  | .stringAsciiCV s => decide (s.length < 2 ^ 32) && s.all (· < 128)
  | .stringUtf8CV s => decide (s.length < 2 ^ 32) && s.all (· < 256)

/-- Well-formedness of every element of a list value. -/
def WFList : List ClarityValue → Bool
  | [] => true
  | v :: vs => WF v && WFList vs

/-- Well-formedness of tuple entries: key fits its 1-byte length prefix and
consists of bytes, and the value is well-formed. -/
def WFEntries : List (List Nat × ClarityValue) → Bool
  | [] => true
  | e :: es =>
      decide (e.1.length < 256) && e.1.all (· < 256) && WF e.2 && WFEntries es

end

mutual

/-- Canonical form of a value: tuples are put in sorted key order at every
depth, everything else is untouched. This is the shape in which a serialized
value is read back. -/
def canon : ClarityValue → ClarityValue
  | .intCV n => .intCV n
  | .uintCV n => .uintCV n
  | .bufferCV bytes => .bufferCV bytes
  | .trueCV => .trueCV
  | .falseCV => .falseCV
  | .standardPrincipalCV version hash => .standardPrincipalCV version hash
  | .contractPrincipalCV version hash contractName =>
      .contractPrincipalCV version hash contractName
  | .responseOkCV v => .responseOkCV (canon v)
  | .responseErrorCV v => .responseErrorCV (canon v)
  | .noneCV => .noneCV
  | .someCV v => .someCV (canon v)
  | .listCV l => .listCV (canonList l)
  | .tupleCV es => .tupleCV (sortEntries (canonEntries es))
  | .stringAsciiCV s => .stringAsciiCV s
  | .stringUtf8CV s => .stringUtf8CV s

/-- Canonicalize every element of a list value. -/
def canonList : List ClarityValue → List ClarityValue
  | [] => []
  | v :: vs => canon v :: canonList vs

/-- Canonicalize the value of every tuple entry, keeping keys and order. -/
def canonEntries : List (List Nat × ClarityValue) → List (List Nat × ClarityValue)
  | [] => []
  | e :: es => (e.1, canon e.2) :: canonEntries es

end

/-! ## Deserializer

Modelled from the spec (§4.2 `deserialize`): reads one tag byte, dispatches,
recursively decodes nested values on the shared cursor, and fails on unknown
tags, truncated input, or a non-ASCII byte in a `StringAscii` payload. The
recursion is bounded by explicit fuel; the public entry point supplies fuel
exceeding the input length, which is always sufficient since every nested
value consumes at least its tag byte. -/

/-- Decode `n` consecutive values with the element decoder `d` (the body of
the list decoder's loop). -/
def deserLoop (d : List Nat → Option (ClarityValue × List Nat)) :
    Nat → List Nat → Option (List ClarityValue × List Nat)
  | 0, bs => some ([], bs)
  | n + 1, bs =>
    (d bs).bind fun p =>
      (deserLoop d n p.2).map fun q => (p.1 :: q.1, q.2)

/-- Decode `n` consecutive tuple entries (1-byte key length, key bytes, then
a value decoded by `d`). -/
def deserEntriesLoop (d : List Nat → Option (ClarityValue × List Nat)) :
    Nat → List Nat → Option (List (List Nat × ClarityValue) × List Nat)
  | 0, bs => some ([], bs)
  | n + 1, bs =>
    match bs with
    | [] => none
    | kl :: r =>
      (readN kl r).bind fun pk =>
        (d pk.2).bind fun pv =>
          (deserEntriesLoop d n pv.2).map fun q => ((pk.1, pv.1) :: q.1, q.2)

/-- Fuel-indexed deserializer: reads one value from the front of the byte
string, returning it with the unconsumed remainder. -/
def deserCV : Nat → List Nat → Option (ClarityValue × List Nat)
  | 0, _ => none
  | _ + 1, [] => none
  | fuel + 1, t :: bs =>
    if t = 0x00 then
      (readN 16 bs).map fun p => (.intCV (twosToInt (bytesToNat p.1)), p.2)
    else if t = 0x01 then
      (readN 16 bs).map fun p => (.uintCV (bytesToNat p.1), p.2)
    else if t = 0x02 then
      (readN 4 bs).bind fun pl =>
        (readN (bytesToNat pl.1) pl.2).map fun p => (.bufferCV p.1, p.2)
    else if t = 0x03 then some (.trueCV, bs)
    else if t = 0x04 then some (.falseCV, bs)
    else if t = 0x05 then
      match bs with
      | [] => none
      | ver :: r => (readN 20 r).map fun p => (.standardPrincipalCV ver p.1, p.2)
    else if t = 0x06 then
      match bs with
      | [] => none
      | ver :: r =>
        (readN 20 r).bind fun ph =>
          match ph.2 with
          | [] => none
          | nl :: r2 =>
            (readN nl r2).map fun pn => (.contractPrincipalCV ver ph.1 pn.1, pn.2)
    else if t = 0x07 then
      (deserCV fuel bs).map fun p => (.responseOkCV p.1, p.2)
    else if t = 0x08 then
      (deserCV fuel bs).map fun p => (.responseErrorCV p.1, p.2)
    else if t = 0x09 then some (.noneCV, bs)
    else if t = 0x0a then
      (deserCV fuel bs).map fun p => (.someCV p.1, p.2)
    else if t = 0x0b then
      (readN 4 bs).bind fun pl =>
        (deserLoop (deserCV fuel) (bytesToNat pl.1) pl.2).map fun p =>
          (.listCV p.1, p.2)
    else if t = 0x0c then
      (readN 4 bs).bind fun pl =>
        (deserEntriesLoop (deserCV fuel) (bytesToNat pl.1) pl.2).map fun p =>
          (.tupleCV p.1, p.2)
    else if t = 0x0d then
      (readN 4 bs).bind fun pl =>
        (readN (bytesToNat pl.1) pl.2).bind fun p =>
          if p.1.all (· < 128) then some (.stringAsciiCV p.1, p.2) else none
    else if t = 0x0e then
      (readN 4 bs).bind fun pl =>
        (readN (bytesToNat pl.1) pl.2).map fun p => (.stringUtf8CV p.1, p.2)
    else none

/-- Deserialize a byte string into the Clarity value it encodes, together
with any unconsumed trailing bytes. -/
def deserializeCV (bs : List Nat) : Option (ClarityValue × List Nat) :=
  deserCV (bs.length + 1) bs

/-! ## Hash functions

Modelled from the spec: the preorder commitment uses "a double-hash scheme:
cryptographic digest then a second shorter digest over that output" — the
`hash160` helper of `@stacks/transactions` (not among the sources under
verification), which is RIPEMD-160 of SHA-256. Both digests are implemented
here in full so commitments are concretely computable. -/

/-- 32-bit right rotation. -/
def rotr32 (n x : Nat) : Nat :=
  ((x >>> n) ||| (x <<< (32 - n))) % 2 ^ 32

/-- 32-bit left rotation. -/
def rotl32 (n x : Nat) : Nat :=
  ((x <<< n) ||| (x >>> (32 - n))) % 2 ^ 32

/-- Little-endian fixed-width encoding of a natural number. -/
def natToLE : Nat → Nat → List Nat
  | 0, _ => []
  | w + 1, n => n % 256 :: natToLE w (n / 256)

/-- Number of zero bytes in SHA-256 / RIPEMD-160 padding for a message of
`len` bytes (so that message + 0x80 + zeros is 8 bytes short of a block). -/
def padZeroCount (len : Nat) : Nat :=
  (119 - len % 64) % 64

/-- Split a byte string into 64-byte blocks (fuel-driven; callers pass fuel
exceeding the length). -/
def chunks64 : Nat → List Nat → List (List Nat)
  | 0, _ => []
  | _ + 1, [] => []
  | fuel + 1, l => l.take 64 :: chunks64 fuel (l.drop 64)

/-- Big-endian 32-bit words from bytes (groups of 4). -/
def bytesToWordsBE : List Nat → List Nat
  | b0 :: b1 :: b2 :: b3 :: r =>
      (((b0 * 256 + b1) * 256 + b2) * 256 + b3) :: bytesToWordsBE r
  | _ => []

/-- Little-endian 32-bit words from bytes (groups of 4). -/
def bytesToWordsLE : List Nat → List Nat
  | b0 :: b1 :: b2 :: b3 :: r =>
      (b0 + 256 * (b1 + 256 * (b2 + 256 * b3))) :: bytesToWordsLE r
  | _ => []

/-- The SHA-256 round constants (decimal). -/
def sha256K : List Nat :=
  [1116352408, 1899447441, 3049323471, 3921009573, 961987163, 1508970993,
   2453635748, 2870763221, 3624381080, 310598401, 607225278, 1426881987,
   1925078388, 2162078206, 2614888103, 3248222580, 3835390401, 4022224774,
   264347078, 604807628, 770255983, 1249150122, 1555081692, 1996064986,
   2554220882, 2821834349, 2952996808, 3210313671, 3336571891, 3584528711,
   113926993, 338241895, 666307205, 773529912, 1294757372, 1396182291,
   1695183700, 1986661051, 2177026350, 2456956037, 2730485921, 2820302411,
   3259730800, 3345764771, 3516065817, 3600352804, 4094571909, 275423344,
   430227734, 506948616, 659060556, 883997877, 958139571, 1322822218,
   1537002063, 1747873779, 1955562222, 2024104815, 2227730452, 2361852424,
   2428436474, 2756734187, 3204031479, 3329325298]

/-- The SHA-256 initial hash state (decimal). -/
def sha256H0 : List Nat :=
  [1779033703, 3144134277, 1013904242, 2773480762,
   1359893119, 2600822924, 528734635, 1541459225]

/-- Extend a 16-word block to the 64-word SHA-256 message schedule
(`k` words remain to be appended). -/
def sha256Extend : Nat → List Nat → List Nat
  | 0, W => W
  | k + 1, W =>
    let i := W.length
    let w15 := W.getD (i - 15) 0
    let w2 := W.getD (i - 2) 0
    let s0 := rotr32 7 w15 ^^^ rotr32 18 w15 ^^^ (w15 >>> 3)
    let s1 := rotr32 17 w2 ^^^ rotr32 19 w2 ^^^ (w2 >>> 10)
    sha256Extend k (W ++ [(W.getD (i - 16) 0 + s0 + W.getD (i - 7) 0 + s1) % 2 ^ 32])

/-- One SHA-256 compression round; the state is the 8-word working list, the
input pairs a schedule word with its round constant. -/
def sha256Round (st : List Nat) (wk : Nat × Nat) : List Nat :=
  match st with
  | [a, b, c, d, e, f, g, h] =>
    let S1 := rotr32 6 e ^^^ rotr32 11 e ^^^ rotr32 25 e
    let ch := (e &&& f) ^^^ ((0xffffffff ^^^ e) &&& g)
    let t1 := (h + S1 + ch + wk.2 + wk.1) % 2 ^ 32
    let S0 := rotr32 2 a ^^^ rotr32 13 a ^^^ rotr32 22 a
    let mj := (a &&& b) ^^^ (a &&& c) ^^^ (b &&& c)
    let t2 := (S0 + mj) % 2 ^ 32
    [(t1 + t2) % 2 ^ 32, a, b, c, (d + t1) % 2 ^ 32, e, f, g]
  | other => other

/-- Compress one 64-byte block into the running SHA-256 state. -/
def sha256Block (H : List Nat) (block : List Nat) : List Nat :=
  let W := sha256Extend 48 (bytesToWordsBE block)
  let st := (W.zip sha256K).foldl sha256Round H
  (H.zip st).map fun p => (p.1 + p.2) % 2 ^ 32

/-- SHA-256 of a byte string. -/
def sha256 (msg : List Nat) : List Nat :=
  let padded := msg ++ 0x80 :: (List.replicate (padZeroCount msg.length) 0 ++ natToBE 8 (msg.length * 8))
  let blocks := chunks64 (padded.length + 1) padded
  ((blocks.foldl sha256Block sha256H0).map (natToBE 4)).flatten

/-- RIPEMD-160 selection function for step `j`. -/
def ripemdF (j x y z : Nat) : Nat :=
  if j < 16 then x ^^^ y ^^^ z
  else if j < 32 then (x &&& y) ||| ((0xffffffff ^^^ x) &&& z)
  else if j < 48 then (x ||| (0xffffffff ^^^ y)) ^^^ z
  else if j < 64 then (x &&& z) ||| (y &&& (0xffffffff ^^^ z))
  else x ^^^ (y ||| (0xffffffff ^^^ z))

/-- RIPEMD-160 left-line round constant for step `j`. -/
def ripemdKL (j : Nat) : Nat :=
  if j < 16 then 0
  else if j < 32 then 0x5A827999
  else if j < 48 then 0x6ED9EBA1
  else if j < 64 then 0x8F1BBCDC
  else 0xA953FD4E

/-- RIPEMD-160 right-line round constant for step `j`. -/
def ripemdKR (j : Nat) : Nat :=
  if j < 16 then 0x50A28BE6
  else if j < 32 then 0x5C4DD124
  else if j < 48 then 0x6D703EF3
  else if j < 64 then 0x7A6D76E9
  else 0

/-- RIPEMD-160 left-line message word order. -/
def ripemdRL : List Nat :=
  [0, 1, 2, 3, 4, 5, 6, 7, 8, 9, 10, 11, 12, 13, 14, 15,
   7, 4, 13, 1, 10, 6, 15, 3, 12, 0, 9, 5, 2, 14, 11, 8,
   3, 10, 14, 4, 9, 15, 8, 1, 2, 7, 0, 6, 13, 11, 5, 12,
   1, 9, 11, 10, 0, 8, 12, 4, 13, 3, 7, 15, 14, 5, 6, 2,
   4, 0, 5, 9, 7, 12, 2, 10, 14, 1, 3, 8, 11, 6, 15, 13]

/-- RIPEMD-160 right-line message word order. -/
def ripemdRR : List Nat :=
  [5, 14, 7, 0, 9, 2, 11, 4, 13, 6, 15, 8, 1, 10, 3, 12,
   6, 11, 3, 7, 0, 13, 5, 10, 14, 15, 8, 12, 4, 9, 1, 2,
   15, 5, 1, 3, 7, 14, 6, 9, 11, 8, 12, 2, 10, 0, 4, 13,
   8, 6, 4, 1, 3, 11, 15, 0, 5, 12, 2, 13, 9, 7, 10, 14,
   12, 15, 10, 4, 1, 5, 8, 7, 6, 2, 13, 14, 0, 3, 9, 11]

/-- RIPEMD-160 left-line rotation amounts. -/
def ripemdSL : List Nat :=
  [11, 14, 15, 12, 5, 8, 7, 9, 11, 13, 14, 15, 6, 7, 9, 8,
   7, 6, 8, 13, 11, 9, 7, 15, 7, 12, 15, 9, 11, 7, 13, 12,
   11, 13, 6, 7, 14, 9, 13, 15, 14, 8, 13, 6, 5, 12, 7, 5,
   11, 12, 14, 15, 14, 15, 9, 8, 9, 14, 5, 6, 8, 6, 5, 12,
   9, 15, 5, 11, 6, 8, 13, 12, 5, 12, 13, 14, 11, 8, 5, 6]

/-- RIPEMD-160 right-line rotation amounts. -/
def ripemdSR : List Nat :=
  [8, 9, 9, 11, 13, 15, 15, 5, 7, 7, 8, 11, 14, 14, 12, 6,
   9, 13, 15, 7, 12, 8, 9, 11, 7, 7, 12, 7, 6, 15, 13, 11,
   9, 7, 15, 11, 8, 6, 6, 14, 12, 13, 5, 14, 13, 13, 7, 5,
   15, 5, 8, 11, 14, 14, 6, 14, 6, 9, 12, 9, 12, 5, 15, 8,
   8, 5, 12, 9, 12, 5, 14, 6, 8, 13, 6, 5, 15, 13, 11, 11]

/-- The RIPEMD-160 initial hash state (decimal). -/
def ripemdH0 : List Nat :=
  [1732584193, 4023233417, 2562383102, 271733878, 3285377520]

/-- One RIPEMD-160 step on a five-word line state. The left line selects
`ripemdF j`, the right line the complementary `ripemdF (79 - j)`. -/
def ripemdStep (X rT sT : List Nat) (kF : Nat → Nat) (fF : Nat → Nat → Nat → Nat → Nat)
    (st : Nat × Nat × Nat × Nat × Nat) (j : Nat) : Nat × Nat × Nat × Nat × Nat :=
  let (a, b, c, d, e) := st
  let t := (rotl32 (sT.getD j 0)
      ((a + fF j b c d + X.getD (rT.getD j 0) 0 + kF j) % 2 ^ 32) + e) % 2 ^ 32
  (e, t, b, rotl32 10 c, d)

/-- Compress one 64-byte block into the running RIPEMD-160 state. -/
def ripemdBlock (H : List Nat) (block : List Nat) : List Nat :=
  let X := bytesToWordsLE block
  let h0 := H.getD 0 0
  let h1 := H.getD 1 0
  let h2 := H.getD 2 0
  let h3 := H.getD 3 0
  let h4 := H.getD 4 0
  let init := (h0, h1, h2, h3, h4)
  let (aL, bL, cL, dL, eL) :=
    (List.range 80).foldl (ripemdStep X ripemdRL ripemdSL ripemdKL ripemdF) init
  let (aR, bR, cR, dR, eR) :=
    (List.range 80).foldl (ripemdStep X ripemdRR ripemdSR ripemdKR (fun j => ripemdF (79 - j))) init
  [(h1 + cL + dR) % 2 ^ 32, (h2 + dL + eR) % 2 ^ 32, (h3 + eL + aR) % 2 ^ 32,
   (h4 + aL + bR) % 2 ^ 32, (h0 + bL + cR) % 2 ^ 32]

/-- RIPEMD-160 of a byte string (little-endian words and length field). -/
def ripemd160 (msg : List Nat) : List Nat :=
  let padded := msg ++ 0x80 :: (List.replicate (padZeroCount msg.length) 0 ++ natToLE 8 (msg.length * 8))
  let blocks := chunks64 (padded.length + 1) padded
  ((blocks.foldl ripemdBlock ripemdH0).map (natToLE 4)).flatten

/-- Modelled from the spec: `hash160` of `@stacks/transactions` — the
"cryptographic digest then a second shorter digest" commitment hash:
RIPEMD-160 of SHA-256. -/
def hash160 (msg : List Nat) : List Nat :=
  ripemd160 (sha256 msg)

/-! ## Value stringification

Modelled from the spec (§4.3): `cvToString` renders a value to its canonical
Clarity source literal, and `getCVTypeString` renders a structural type
descriptor. Both implementations live outside the sources under
verification. The spec does not specify how principals are rendered (the
source uses a checksummed address encoding), so principals are rendered here
from their raw version and hash bytes in hex. Strings are modelled at byte
granularity, so the `\u{...}` escapes of §4.3 are emitted per byte. -/

/-- Lowercase hex digits. -/
def hexDigits : List Char :=
  "0123456789abcdef".data

/-- Two lowercase hex digits of a byte. -/
def hexOfByte (b : Nat) : String :=
  ⟨[hexDigits.getD (b / 16 % 16) '0', hexDigits.getD (b % 16) '0']⟩

/-- Lowercase hex of a byte string. -/
def hexOfBytes (bs : List Nat) : String :=
  String.join (bs.map hexOfByte)

/-- A `\u{..}` escape for a byte value. -/
def uEscape (b : Nat) : String :=
  "\\u\x7b" ++ hexOfByte b ++ "\x7d"

/-- Render one byte of a double-quoted ASCII string literal, escaping the
quote, the backslash and control characters. -/
def escapeAsciiByte (b : Nat) : String :=
  if b = 34 then "\\\""
  else if b = 92 then "\\\\"
  else if b < 32 then uEscape b
  else String.singleton (Char.ofNat b)

/-- Render one byte of a UTF-8 string literal: as `escapeAsciiByte`, with
non-ASCII bytes also rendered as escapes. -/
def escapeUtf8Byte (b : Nat) : String :=
  if 128 ≤ b then uEscape b else escapeAsciiByte b

/-- Tuple keys (ASCII in the source) rendered as text. -/
def keyToString (k : List Nat) : String :=
  ⟨k.map Char.ofNat⟩

/-- Join rendered fragments with single spaces. -/
def joinSpaced : List String → String
  | [] => ""
  | [s] => s
  | s :: r => s ++ " " ++ joinSpaced r

mutual

/-- Canonical Clarity source-literal rendering of a value (spec §4.3). -/
def cvToString : ClarityValue → String
  | .intCV n => toString n
  | .uintCV n => "u" ++ toString n
  | .bufferCV bytes => "0x" ++ hexOfBytes bytes
  | .trueCV => "true"
  | .falseCV => "false"
  | .standardPrincipalCV version hash => hexOfBytes (version :: hash)
  | .contractPrincipalCV version hash contractName =>
      hexOfBytes (version :: hash) ++ "." ++ keyToString contractName
  | .responseOkCV v => "(ok " ++ cvToString v ++ ")"
  | .responseErrorCV v => "(err " ++ cvToString v ++ ")"
  | .noneCV => "none"
  | .someCV v => "(some " ++ cvToString v ++ ")"
  | .listCV l => "(list" ++ cvToStringList l ++ ")"
  | .tupleCV es =>
      "(tuple" ++ String.join ((sortByKey (cvToStringEntries es)).map fun p =>
        " (" ++ keyToString p.1 ++ " " ++ p.2 ++ ")") ++ ")"
  | .stringAsciiCV s => "\"" ++ String.join (s.map escapeAsciiByte) ++ "\""
  | .stringUtf8CV s => "u\"" ++ String.join (s.map escapeUtf8Byte) ++ "\""

/-- Render the elements of a list value, each preceded by a space. -/
def cvToStringList : List ClarityValue → String
  | [] => ""
  | v :: vs => " " ++ cvToString v ++ cvToStringList vs

/-- Render the value of each tuple entry, keeping its key. -/
def cvToStringEntries : List (List Nat × ClarityValue) → List (List Nat × String)
  | [] => []
  | e :: es => (e.1, cvToString e.2) :: cvToStringEntries es

end

mutual

/-- Structural type-descriptor string of a value (spec §4.3): the untaken
branch of a response is the placeholder `UnknownType`; an empty list's
element type is likewise unknowable. -/
def getCVTypeString : ClarityValue → String
  | .intCV _ => "int"
  | .uintCV _ => "uint"
  | .bufferCV bytes => "(buff " ++ toString bytes.length ++ ")"
  | .trueCV => "bool"
  | .falseCV => "bool"
  | .standardPrincipalCV _ _ => "principal"
  | .contractPrincipalCV _ _ _ => "principal"
  | .responseOkCV v => "(response " ++ getCVTypeString v ++ " UnknownType)"
  | .responseErrorCV v => "(response UnknownType " ++ getCVTypeString v ++ ")"
  | .noneCV => "(optional none)"
  | .someCV v => "(optional " ++ getCVTypeString v ++ ")"
  | .listCV l =>
      "(list " ++ toString l.length ++ " " ++
        (match getCVTypeStringList l with
         | [] => "UnknownType"
         | t :: _ => t) ++ ")"
  | .tupleCV es =>
      "(tuple" ++ String.join ((sortByKey (getCVTypeStringEntries es)).map fun p =>
        " (" ++ keyToString p.1 ++ " " ++ p.2 ++ ")") ++ ")"
  | .stringAsciiCV s => "(string-ascii " ++ toString s.length ++ ")"
  | .stringUtf8CV s => "(string-utf8 " ++ toString s.length ++ ")"

/-- Type descriptors of the elements of a list value. -/
def getCVTypeStringList : List ClarityValue → List String
  | [] => []
  | v :: vs => getCVTypeString v :: getCVTypeStringList vs

/-- Type descriptors of the values of tuple entries, keyed. -/
def getCVTypeStringEntries : List (List Nat × ClarityValue) → List (List Nat × String)
  | [] => []
  | e :: es => (e.1, getCVTypeString e.2) :: getCVTypeStringEntries es

end

/-! ## BNS operation builders (the `@stacks/bns` package sources)

The network, transaction-construction and read-only-call collaborators
(`@stacks/network`, `makeUnsignedContractCall`, `callReadOnlyFunction`) are
external to the verified sources; a built transaction is modelled as the
options record the builder hands to them, and a read-only query as the call
descriptor. `decodeFQN`, `bufferCVFromString` and `getZonefileHash` are the
`@stacks/bns` `utils.ts` helpers, not among the sources under verification;
they are modelled from the spec's description of fully qualified names
("name.namespace", optionally "subdomain.name.namespace") and zonefile
hashing. -/

/-- A network descriptor: only the chain identifier is consulted. -/
structure StacksNetwork where
  chainId : Nat

/-- `ChainID.Mainnet` of `@stacks/common`. -/
def chainIdMainnet : Nat := 0x00000001

/-- `ChainID.Testnet` of `@stacks/common`. -/
def chainIdTestnet : Nat := 0x80000000

/-- The BNS contract name. -/
def BNS_CONTRACT_NAME : String := "bns"

/-- `BnsContractAddress.mainnet`. -/
def bnsContractAddressMainnet : String := "SP000000000000000000002Q6VF78"

/-- `BnsContractAddress.testnet`. -/
def bnsContractAddressTestnet : String := "ST000000000000000000002AMW42H"

/-- Resolve the BNS contract address from the network's chain identifier;
unrecognized chain identifiers fail. -/
def getBnsContractAddress (network : StacksNetwork) : Except String String :=
  if network.chainId = chainIdMainnet then .ok bnsContractAddressMainnet
  else if network.chainId = chainIdTestnet then .ok bnsContractAddressTestnet
  else .error ("Unexpected ChainID: " ++ toString network.chainId)

/-- A decoded fully qualified name. -/
structure FQN where
  subdomain : Option String
  name : String
  nameSpace : String

/-- Modelled from the spec: `decodeFQN` of the `@stacks/bns` utils — splits a
fully qualified name on dots; three or more fragments are read as
subdomain.name.namespace, otherwise name.namespace. -/
def decodeFQN (fqdn : String) : FQN :=
  let parts := splitDot fqdn
  if parts.length > 2 then
    { subdomain := some (parts.getD 0 ""), name := parts.getD 1 "",
      nameSpace := parts.getD 2 "" }
  else
    { subdomain := none, name := parts.getD 0 "", nameSpace := parts.getD 1 "" }

/-- The supplied name carries a subdomain qualifier, in the sense tested by
the builders' `if (subdomain)` guard: `decodeFQN` produced a subdomain
fragment and it is non-empty (JavaScript truthiness). -/
def hasSubdomain (fqn : String) : Bool :=
  strTruthy (decodeFQN fqn).subdomain

/-- Modelled from the spec: `bufferCVFromString` — the buffer value of a
string's UTF-8 bytes. -/
def bufferCVFromString (s : String) : ClarityValue :=
  .bufferCV (utf8Bytes s)

/-- Modelled from the spec: `getZonefileHash` — the `hash160` commitment of
the zonefile's bytes. -/
def getZonefileHash (zonefile : String) : List Nat :=
  hash160 (utf8Bytes zonefile)

/-- The options record handed to the external `makeUnsignedContractCall`;
the built transaction is modelled by this record (plus the out-of-band
attachment bytes). -/
structure UnsignedContractCall where
  contractAddress : String
  contractName : String
  functionName : String
  functionArgs : List ClarityValue
  publicKey : String
  attachment : Option (List Nat)

/-- Options of `makeBnsContractCall`. -/
structure BnsContractCallOptions where
  functionName : String
  functionArgs : List ClarityValue
  publicKey : String
  network : StacksNetwork
  attachment : Option (List Nat)

/-- Resolve the contract address and assemble the unsigned contract-call
descriptor. -/
def makeBnsContractCall (options : BnsContractCallOptions) : Except String UnsignedContractCall :=
  (getBnsContractAddress options.network).map fun addr =>
    { contractAddress := addr
      contractName := BNS_CONTRACT_NAME
      functionName := options.functionName
      functionArgs := options.functionArgs
      publicKey := options.publicKey
      attachment := options.attachment }

/-- The descriptor of a read-only BNS contract query handed to the external
`callReadOnlyFunction`. -/
structure BnsReadOnlyCall where
  contractAddress : String
  contractName : String
  functionName : String
  functionArgs : List ClarityValue
  senderAddress : String

/-- Resolve the contract address and assemble the read-only call
descriptor. -/
def callReadOnlyBnsFunction (functionName : String) (functionArgs : List ClarityValue)
    (senderAddress : String) (network : StacksNetwork) : Except String BnsReadOnlyCall :=
  (getBnsContractAddress network).map fun addr =>
    { contractAddress := addr
      contractName := BNS_CONTRACT_NAME
      functionName := functionName
      functionArgs := functionArgs
      senderAddress := senderAddress }

/-- `canRegisterName`, up to its network round-trip: validates the name and
produces the read-only query it issues. The sender address, which the source
derives from a freshly generated random key, is taken as a parameter. -/
def canRegisterNameQuery (fullyQualifiedName : String) (randomAddress : String)
    (network : StacksNetwork) : Except String BnsReadOnlyCall :=
  let d := decodeFQN fullyQualifiedName
  if strTruthy d.subdomain then
    .error "Cannot register a subdomain using registerName"
  else
    callReadOnlyBnsFunction "can-name-be-registered"
      [bufferCVFromString d.nameSpace, bufferCVFromString d.name] randomAddress network

/-- The continuation `canRegisterName` applies to the decoded query
response: `true` exactly for a Response-Ok wrapping BoolTrue, and `false`
for everything else — including contract-level Response-Err values. -/
def canRegisterNameHandler : ClarityValue → Bool
  | .responseOkCV v =>
      match v with
      | .trueCV => true
      | _ => false
  | _ => false

/-- `getNamespacePrice`, up to its network round-trip: the read-only query
it issues. -/
def getNamespacePriceQuery (nameSpace : String) (randomAddress : String)
    (network : StacksNetwork) : Except String BnsReadOnlyCall :=
  callReadOnlyBnsFunction "get-namespace-price" [bufferCVFromString nameSpace]
    randomAddress network

/-- The continuation `getNamespacePrice` applies to the decoded query
response. -/
def getNamespacePriceHandler : ClarityValue → Except String Int
  | .responseOkCV (.intCV n) => .ok n
  | .responseOkCV (.uintCV n) => .ok (n : Int)
  | .responseOkCV _ => .error "Response did not contain a number"
  | .responseErrorCV v => .error (cvToString v)
  | other => .error ("Unexpected Clarity Value type: " ++ getCVTypeString other)

/-- `getNamePrice`, up to its network round-trip: validates the name and
produces the read-only query it issues. -/
def getNamePriceQuery (fullyQualifiedName : String) (randomAddress : String)
    (network : StacksNetwork) : Except String BnsReadOnlyCall :=
  let d := decodeFQN fullyQualifiedName
  if strTruthy d.subdomain then
    .error "Cannot get subdomain name price"
  else
    callReadOnlyBnsFunction "get-name-price"
      [bufferCVFromString d.nameSpace, bufferCVFromString d.name] randomAddress network

/-- The continuation `getNamePrice` applies to the decoded query response.
The source's `else` branch blindly casts to a Response-Err value; on a value
that is neither Response-Ok nor Response-Err that cast reads a property of
`undefined` and crashes, modelled as the final error case. -/
def getNamePriceHandler : ClarityValue → Except String Int
  | .responseOkCV (.intCV n) => .ok n
  | .responseOkCV (.uintCV n) => .ok (n : Int)
  | .responseOkCV _ => .error "Response did not contain a number"
  | .responseErrorCV v => .error (cvToString v)
  | _ => .error "TypeError: Cannot read properties of undefined"

/-- `buildPreorderNamespaceTx`: commits to `hash160` of the concatenated
namespace and salt bytes. -/
def buildPreorderNamespaceTx (nameSpace salt : String) (stxToBurn : Nat)
    (publicKey : String) (network : StacksNetwork) : Except String UnsignedContractCall :=
  let saltedNamespaceBytes := utf8Bytes (nameSpace ++ salt)
  let hashedSaltedNamespace := hash160 saltedNamespaceBytes
  makeBnsContractCall
    { functionName := "namespace-preorder"
      functionArgs := [.bufferCV hashedSaltedNamespace, .uintCV stxToBurn]
      publicKey := publicKey
      network := network
      attachment := none }

/-- `buildPreorderNameTx`: rejects subdomains, then commits to `hash160` of
the concatenated fully qualified name and salt bytes. -/
def buildPreorderNameTx (fullyQualifiedName salt : String) (stxToBurn : Nat)
    (publicKey : String) (network : StacksNetwork) : Except String UnsignedContractCall :=
  let d := decodeFQN fullyQualifiedName
  if strTruthy d.subdomain then
    .error "Cannot preorder a subdomain using preorderName()"
  else
    let saltedNamesBytes := utf8Bytes (fullyQualifiedName ++ salt)
    let hashedSaltedName := hash160 saltedNamesBytes
    makeBnsContractCall
      { functionName := "name-preorder"
        functionArgs := [.bufferCV hashedSaltedName, .uintCV stxToBurn]
        publicKey := publicKey
        network := network
        attachment := none }

/-- `buildRegisterNameTx`: rejects subdomains, then registers with the
zonefile hash and carries the zonefile as the attachment. -/
def buildRegisterNameTx (fullyQualifiedName salt zonefile publicKey : String)
    (network : StacksNetwork) : Except String UnsignedContractCall :=
  let d := decodeFQN fullyQualifiedName
  if strTruthy d.subdomain then
    .error "Cannot register a subdomain using registerName()"
  else
    let zonefileHash := getZonefileHash zonefile
    makeBnsContractCall
      { functionName := "name-register"
        functionArgs :=
          [bufferCVFromString d.nameSpace, bufferCVFromString d.name,
           bufferCVFromString salt, .bufferCV zonefileHash]
        publicKey := publicKey
        network := network
        attachment := some (utf8Bytes zonefile) }

/-- `buildUpdateNameTx`: rejects subdomains, then updates the zonefile hash
and carries the zonefile as the attachment. -/
def buildUpdateNameTx (fullyQualifiedName zonefile publicKey : String)
    (network : StacksNetwork) : Except String UnsignedContractCall :=
  let d := decodeFQN fullyQualifiedName
  if strTruthy d.subdomain then
    .error "Cannot update a subdomain using updateName()"
  else
    let zonefileHash := getZonefileHash zonefile
    makeBnsContractCall
      { functionName := "name-update"
        functionArgs :=
          [bufferCVFromString d.nameSpace, bufferCVFromString d.name, .bufferCV zonefileHash]
        publicKey := publicKey
        network := network
        attachment := some (utf8Bytes zonefile) }

/-- `buildTransferNameTx`: rejects subdomains; a truthy optional zonefile
appends its hash to the argument list and rides along as the attachment. -/
def buildTransferNameTx (fullyQualifiedName newOwnerAddress : String)
    (zonefile : Option String) (publicKey : String) (network : StacksNetwork) :
    Except String UnsignedContractCall :=
  let d := decodeFQN fullyQualifiedName
  if strTruthy d.subdomain then
    .error "Cannot transfer a subdomain using transferName()"
  else
    let functionArgs :=
      [bufferCVFromString d.nameSpace, bufferCVFromString d.name,
       bufferCVFromString newOwnerAddress] ++
      (if strTruthy zonefile then [ClarityValue.bufferCV (getZonefileHash (zonefile.getD ""))]
       else [])
    makeBnsContractCall
      { functionName := "name-transfer"
        functionArgs := functionArgs
        publicKey := publicKey
        network := network
        attachment :=
          if strTruthy zonefile then some (utf8Bytes (zonefile.getD "")) else none }

/-- `buildRevokeNameTx`: rejects subdomains, then revokes the name. -/
def buildRevokeNameTx (fullyQualifiedName publicKey : String)
    (network : StacksNetwork) : Except String UnsignedContractCall :=
  let d := decodeFQN fullyQualifiedName
  if strTruthy d.subdomain then
    .error "Cannot revoke a subdomain using revokeName()"
  else
    makeBnsContractCall
      { functionName := "name-revoke"
        functionArgs := [bufferCVFromString d.nameSpace, bufferCVFromString d.name]
        publicKey := publicKey
        network := network
        attachment := none }

/-- `buildRenewNameTx`: rejects subdomains; a truthy optional new owner
appends its address, a truthy optional zonefile appends its hash and rides
along as the attachment. -/
def buildRenewNameTx (fullyQualifiedName : String) (stxToBurn : Nat)
    (newOwnerAddress : Option String) (zonefile : Option String)
    (publicKey : String) (network : StacksNetwork) : Except String UnsignedContractCall :=
  let d := decodeFQN fullyQualifiedName
  if strTruthy d.subdomain then
    .error "Cannot renew a subdomain using renewName()"
  else
    let functionArgs :=
      [bufferCVFromString d.nameSpace, bufferCVFromString d.name,
       ClarityValue.uintCV stxToBurn] ++
      (if strTruthy newOwnerAddress then [bufferCVFromString (newOwnerAddress.getD "")]
       else []) ++
      (if strTruthy zonefile then [ClarityValue.bufferCV (getZonefileHash (zonefile.getD ""))]
       else [])
    makeBnsContractCall
      { functionName := "name-renewal"
        functionArgs := functionArgs
        publicKey := publicKey
        network := network
        attachment :=
          if strTruthy zonefile then some (utf8Bytes (zonefile.getD "")) else none }

/-! ## Session data store (`auth/sessionStore.ts`)

`SessionData` itself lives outside the verified sources; it is modelled by
the fields `InstanceDataStore` consults: an optional `userData` carrying an
optional `identityAddress`. The identity-change callback is an external
observer; the store keeps only whether one is registered. -/

/-- The part of `UserData` the store consults. -/
structure UserData where
  identityAddress : Option String

/-- The part of `SessionData` the store consults. -/
structure SessionData where
  userData : Option UserData

/-- `new SessionData({})`. -/
def emptySessionData : SessionData :=
  { userData := none }

/-- The part of `SessionOptions` that reaches the stored `SessionData`. -/
structure SessionOptions where
  userData : Option UserData

/-- `new SessionData(sessionOptions)`. -/
def sessionDataFromOptions (opts : SessionOptions) : SessionData :=
  { userData := opts.userData }

/-- The state of an `InstanceDataStore`. -/
structure InstanceDataStore where
  sessionData : Option SessionData
  lastUpdatedIdentity : Option String
  hasCallback : Bool

/-- The identity address of a session, as read by the guard chain
`session && session.userData && session.userData.identityAddress`. -/
def sessionIdentity (session : SessionData) : Option String :=
  session.userData.bind fun ud => ud.identityAddress

/-- `InstanceDataStore.setSessionData`: stores the session, notifies the
registered callback (an external effect, not part of the state), records the
current identity, and returns `true`. -/
def setSessionData (st : InstanceDataStore) (session : SessionData) :
    InstanceDataStore × Bool :=
  ({ st with sessionData := some session
             lastUpdatedIdentity := sessionIdentity session }, true)

/-- `InstanceDataStore.deleteSessionData`: stores a fresh empty session and
returns `true`. -/
def deleteSessionData (st : InstanceDataStore) : InstanceDataStore × Bool :=
  ((setSessionData st emptySessionData).1, true)

/-- `InstanceDataStore.getSessionData`: the stored session, or the
`NoSessionDataError` when none is present. -/
def getSessionData (st : InstanceDataStore) : Except String SessionData :=
  match st.sessionData with
  | none => .error "No session data was found."
  | some sd => .ok sd

/-- `InstanceDataStore.setSessionIdentityChangeCallback`. -/
def setSessionIdentityChangeCallback (st : InstanceDataStore) (registered : Bool) :
    InstanceDataStore :=
  { st with hasCallback := registered }

/-- The `InstanceDataStore` constructor: the abstract base constructor
stores a session built from the options when given; then an empty session is
installed if none is present, and the last-updated identity is read off. -/
def mkInstanceDataStore (sessionOptions : Option SessionOptions) : InstanceDataStore :=
  let st0 : InstanceDataStore :=
    { sessionData := none, lastUpdatedIdentity := none, hasCallback := false }
  let st1 :=
    match sessionOptions with
    | some opts => (setSessionData st0 (sessionDataFromOptions opts)).1
    | none => st0
  let st2sd :=
    match st1.sessionData with
    | none => ((setSessionData st1 emptySessionData).1, emptySessionData)
    | some sd => (st1, sd)
  match sessionIdentity st2sd.2 with
  | some addr => { st2sd.1 with lastUpdatedIdentity := some addr }
  | none => st2sd.1

/-- The operations callable on a constructed store. -/
inductive StoreOp where
  | set (session : SessionData)
  | delete
  | setCallback (registered : Bool)

/-- Apply one store operation. -/
def applyStoreOp (st : InstanceDataStore) : StoreOp → InstanceDataStore
  | .set session => (setSessionData st session).1
  | .delete => (deleteSessionData st).1
  | .setCallback registered => setSessionIdentityChangeCallback st registered

/-- Apply a sequence of store operations. -/
def applyStoreOps (st : InstanceDataStore) (ops : List StoreOp) : InstanceDataStore :=
  ops.foldl applyStoreOp st

/-! ## Zone-file token URL (`profiles/profileZoneFiles.ts`)

`getTokenFileUrl` receives a parsed zone file as an untyped JSON object and
probes it with `hasOwnProperty` / `Array.isArray` checks; the probed shape is
modelled by `ZoneFileUri`: the `uri` property is absent, not an array, or an
array of records whose `target` property may be absent (targets, when
present, are taken to be strings as the source assumes). -/

/-- One record of the `uri` array: its `target` property may be absent. -/
structure UriRecord where
  target : Option String

/-- The `uri` property of a parsed zone file. -/
inductive ZoneFileUri where
  | absent
  | notArray
  | arr (records : List UriRecord)

/-- `getTokenFileUrl`: `null` unless the zone file has a `uri` array with a
first record carrying a `target`; the target is returned as-is when it
starts with `https` or `http`, and with `https://` prepended otherwise. -/
def getTokenFileUrl (zoneFileJson : ZoneFileUri) : Option String :=
  match zoneFileJson with
  | .absent => none
  | .notArray => none
  | .arr [] => none
  | .arr (firstUriRecord :: _) =>
    match firstUriRecord.target with
    | none => none
    | some tokenFileUrl =>
      if strStartsWith tokenFileUrl "https" then some tokenFileUrl
      else if strStartsWith tokenFileUrl "http" then some tokenFileUrl
      else some ("https://" ++ tokenFileUrl)

/-! ## Byte-level lemmas -/

theorem natToBE_length (w n : Nat) : (natToBE w n).length = w := by
  induction w generalizing n with
  | zero => rfl
  | succ w ih => simp [natToBE, ih]

theorem bytesToNat_snoc (xs : List Nat) (b : Nat) :
    bytesToNat (xs ++ [b]) = bytesToNat xs * 256 + b := by
  simp [bytesToNat, List.foldl_append]

theorem bytesToNat_natToBE (w n : Nat) : bytesToNat (natToBE w n) = n % 256 ^ w := by
  induction w generalizing n with
  | zero => simp [natToBE, bytesToNat, Nat.mod_one]
  | succ w ih =>
    rw [natToBE, bytesToNat_snoc, ih]
    rw [pow_succ, Nat.mul_comm (256 ^ w) 256, Nat.mod_mul]
    ring

theorem bytesToNat_natToBE_of_lt {w n : Nat} (h : n < 256 ^ w) :
    bytesToNat (natToBE w n) = n := by
  rw [bytesToNat_natToBE, Nat.mod_eq_of_lt h]

theorem readN_exact (xs rest : List Nat) :
    readN xs.length (xs ++ rest) = some (xs, rest) := by
  induction xs with
  | nil => rfl
  | cons b bs ih => simp [readN, ih]

theorem readN_exact_of_length {n : Nat} {xs : List Nat} (rest : List Nat)
    (h : xs.length = n) : readN n (xs ++ rest) = some (xs, rest) := by
  subst h; exact readN_exact xs rest

theorem intToTwos_lt (n : Int) : intToTwos n < 2 ^ 128 := by
  unfold intToTwos
  have h1 : n % (2 ^ 128 : Int) < 2 ^ 128 := Int.emod_lt_of_pos n (by norm_num)
  omega

theorem twosToInt_intToTwos {n : Int} (h1 : -(2 ^ 127) ≤ n) (h2 : n < 2 ^ 127) :
    twosToInt (intToTwos n) = n := by
  unfold twosToInt intToTwos
  have hnn : 0 ≤ n % (2 ^ 128 : Int) := Int.emod_nonneg n (by norm_num)
  have hlt : n % (2 ^ 128 : Int) < 2 ^ 128 := Int.emod_lt_of_pos n (by norm_num)
  have hcase : n % (2 ^ 128 : Int) = n ∨ n % (2 ^ 128 : Int) = n + 2 ^ 128 := by
    omega
  rcases hcase with h | h <;> (rw [h]; split_ifs <;> omega)

/-! ## Round-trip machinery -/

theorem WFList_iff (l : List ClarityValue) :
    WFList l = true ↔ ∀ v ∈ l, WF v = true := by
  induction l with
  | nil => simp [WFList]
  | cons v vs ih => simp [WFList, ih]

theorem WFEntries_iff (es : List (List Nat × ClarityValue)) :
    WFEntries es = true ↔
      ∀ e ∈ es, e.1.length < 256 ∧ (∀ b ∈ e.1, b < 256) ∧ WF e.2 = true := by
  induction es with
  | nil => simp [WFEntries]
  | cons e es ih => simp [WFEntries, ih, List.all_eq_true, and_assoc]

theorem length_le_serializeList {v : ClarityValue} {l : List ClarityValue}
    (h : v ∈ l) : (serializeCV v).length ≤ (serializeList l).length := by
  induction l with
  | nil => cases h
  | cons w ws ih =>
    rcases List.mem_cons.mp h with rfl | h
    · simp [serializeList]
    · have := ih h
      simp only [serializeList, List.length_append]
      omega

/-- The serialized form of a run of tuple entries, written in the order
given. -/
def entriesBytes (es : List (List Nat × ClarityValue)) : List Nat :=
  es.flatMap fun e => e.1.length :: (e.1 ++ serializeCV e.2)

theorem entriesBytes_cons (e : List Nat × ClarityValue)
    (es : List (List Nat × ClarityValue)) :
    entriesBytes (e :: es) = e.1.length :: (e.1 ++ (serializeCV e.2 ++ entriesBytes es)) := by
  simp [entriesBytes]

theorem serializeEntryValues_eq_map (es : List (List Nat × ClarityValue)) :
    serializeEntryValues es = es.map fun e => (e.1, serializeCV e.2) := by
  induction es with
  | nil => rfl
  | cons e es ih => simp [serializeEntryValues, ih]

theorem flattenSortedEntries_serializeEntryValues (es : List (List Nat × ClarityValue)) :
    flattenSortedEntries (serializeEntryValues es) = entriesBytes (sortEntries es) := by
  unfold flattenSortedEntries entriesBytes sortEntries sortByKey
  rw [serializeEntryValues_eq_map,
    ← List.map_insertionSort keyFstLe keyFstLe (fun e => (e.1, serializeCV e.2)) es
      (fun a _ b _ => Iff.rfl)]
  rw [List.flatMap_map]

theorem length_le_entriesBytes {e : List Nat × ClarityValue}
    {es : List (List Nat × ClarityValue)} (h : e ∈ es) :
    (serializeCV e.2).length ≤ (entriesBytes es).length := by
  induction es with
  | nil => cases h
  | cons e₀ es ih =>
    rcases List.mem_cons.mp h with rfl | h
    · simp only [entriesBytes, List.flatMap_cons, List.length_append, List.length_cons,
        List.length_append]
      omega
    · have := ih h
      simp only [entriesBytes, List.flatMap_cons, List.length_append] at this ⊢
      omega

theorem canonEntries_eq_map (es : List (List Nat × ClarityValue)) :
    canonEntries es = es.map fun e => (e.1, canon e.2) := by
  induction es with
  | nil => rfl
  | cons e es ih => simp [canonEntries, ih]

theorem canonList_eq_map (l : List ClarityValue) : canonList l = l.map canon := by
  induction l with
  | nil => rfl
  | cons v vs ih => simp [canonList, ih]

theorem canonEntries_sortEntries (es : List (List Nat × ClarityValue)) :
    canonEntries (sortEntries es) = sortEntries (canonEntries es) := by
  rw [canonEntries_eq_map, canonEntries_eq_map]
  unfold sortEntries sortByKey
  exact List.map_insertionSort keyFstLe keyFstLe _ es (fun a _ b _ => Iff.rfl)

theorem sortEntries_length (es : List (List Nat × ClarityValue)) :
    (sortEntries es).length = es.length :=
  (List.perm_insertionSort keyFstLe es).length_eq

theorem mem_of_mem_sortEntries {e : List Nat × ClarityValue}
    {es : List (List Nat × ClarityValue)} (h : e ∈ sortEntries es) : e ∈ es :=
  (List.perm_insertionSort keyFstLe es).mem_iff.mp h

theorem deserLoop_correct (d : List Nat → Option (ClarityValue × List Nat))
    (l : List ClarityValue)
    (hd : ∀ v ∈ l, ∀ r, d (serializeCV v ++ r) = some (canon v, r)) :
    ∀ rest, deserLoop d l.length (serializeList l ++ rest) = some (canonList l, rest) := by
  induction l with
  | nil => intro rest; rfl
  | cons v vs ih =>
    intro rest
    have hv := hd v (List.mem_cons_self v vs) (serializeList vs ++ rest)
    simp only [serializeList, List.length_cons, deserLoop, List.append_assoc, hv,
      Option.bind_eq_bind, Option.some_bind]
    rw [ih (fun w hw => hd w (List.mem_cons_of_mem v hw)) rest]
    rfl

theorem deserEntriesLoop_correct (d : List Nat → Option (ClarityValue × List Nat))
    (es : List (List Nat × ClarityValue))
    (hd : ∀ e ∈ es, ∀ r, d (serializeCV e.2 ++ r) = some (canon e.2, r)) :
    ∀ rest,
      deserEntriesLoop d es.length (entriesBytes es ++ rest) =
        some (canonEntries es, rest) := by
  induction es with
  | nil => intro rest; rfl
  | cons e es ih =>
    intro rest
    have hv := hd e (List.mem_cons_self e es) (entriesBytes es ++ rest)
    have hread :
        readN e.1.length (e.1 ++ (serializeCV e.2 ++ (entriesBytes es ++ rest))) =
          some (e.1, serializeCV e.2 ++ (entriesBytes es ++ rest)) :=
      readN_exact e.1 _
    rw [entriesBytes_cons]
    simp only [List.length_cons, deserEntriesLoop, List.cons_append, List.append_assoc]
    rw [hread, Option.some_bind, hv, Option.some_bind,
      ih (fun e he => hd e (List.mem_cons_of_mem _ he)) rest]
    rfl

/-- The central codec theorem: with enough fuel, deserializing the
serialization of a well-formed value (plus any trailing bytes) succeeds and
yields its canonical form with exactly the trailing bytes left over. -/
theorem deserCV_serializeCV (fuel : Nat) :
    ∀ (v : ClarityValue), WF v = true → (serializeCV v).length < fuel →
      ∀ rest, deserCV fuel (serializeCV v ++ rest) = some (canon v, rest) := by
  induction fuel with
  | zero => intro v _ h; exact absurd h (Nat.not_lt_zero _)
  | succ fuel ih =>
    intro v hWF hlen rest
    cases v with
    | intCV n =>
      obtain ⟨h1, h2⟩ : (-(2 ^ 127) ≤ n) ∧ n < 2 ^ 127 := by
        simpa [WF, Bool.and_eq_true, decide_eq_true_eq] using hWF
      have h256 : intToTwos n < 256 ^ 16 := by
        have h := intToTwos_lt n
        have he : (256 : Nat) ^ 16 = 2 ^ 128 := by norm_num
        omega
      simp [serializeCV, deserCV,
        readN_exact_of_length rest (natToBE_length 16 (intToTwos n)),
        bytesToNat_natToBE_of_lt h256, twosToInt_intToTwos h1 h2, canon]
    | uintCV n =>
      have h1 : n < 2 ^ 128 := by
        simpa [WF, decide_eq_true_eq] using hWF
      have h256 : n < 256 ^ 16 := by
        have he : (256 : Nat) ^ 16 = 2 ^ 128 := by norm_num
        omega
      simp [serializeCV, deserCV,
        readN_exact_of_length rest (natToBE_length 16 n),
        bytesToNat_natToBE_of_lt h256, canon]
    | bufferCV bytes =>
      obtain ⟨h1, -⟩ : bytes.length < 2 ^ 32 ∧ ∀ b ∈ bytes, b < 256 := by
        simpa [WF, Bool.and_eq_true, decide_eq_true_eq, List.all_eq_true] using hWF
      have h256 : bytes.length < 256 ^ 4 := by
        have he : (256 : Nat) ^ 4 = 2 ^ 32 := by norm_num
        omega
      simp [serializeCV, deserCV,
        readN_exact_of_length (bytes ++ rest) (natToBE_length 4 bytes.length),
        bytesToNat_natToBE_of_lt h256, readN_exact bytes rest, canon]
    | trueCV => simp [serializeCV, deserCV, canon]
    | falseCV => simp [serializeCV, deserCV, canon]
    | standardPrincipalCV version hash =>
      obtain ⟨-, h2, -⟩ :
          version < 256 ∧ hash.length = 20 ∧ ∀ b ∈ hash, b < 256 := by
        simpa [WF, Bool.and_eq_true, decide_eq_true_eq, List.all_eq_true, and_assoc]
          using hWF
      simp [serializeCV, deserCV, readN_exact_of_length rest h2, canon]
    | contractPrincipalCV version hash contractName =>
      obtain ⟨-, h2, -, -, -⟩ :
          version < 256 ∧ hash.length = 20 ∧ (∀ b ∈ hash, b < 256) ∧
            contractName.length < 256 ∧ ∀ b ∈ contractName, b < 256 := by
        simpa [WF, Bool.and_eq_true, decide_eq_true_eq, List.all_eq_true, and_assoc]
          using hWF
      simp [serializeCV, deserCV,
        readN_exact_of_length (contractName.length :: (contractName ++ rest)) h2,
        readN_exact contractName rest, canon]
    | responseOkCV v =>
      have hWF' : WF v = true := by simpa [WF] using hWF
      have hlen' : (serializeCV v).length < fuel := by
        simp only [serializeCV, List.length_cons] at hlen
        omega
      simp [serializeCV, deserCV, ih v hWF' hlen' rest, canon]
    | responseErrorCV v =>
      have hWF' : WF v = true := by simpa [WF] using hWF
      have hlen' : (serializeCV v).length < fuel := by
        simp only [serializeCV, List.length_cons] at hlen
        omega
      simp [serializeCV, deserCV, ih v hWF' hlen' rest, canon]
    | noneCV => simp [serializeCV, deserCV, canon]
    | someCV v =>
      have hWF' : WF v = true := by simpa [WF] using hWF
      have hlen' : (serializeCV v).length < fuel := by
        simp only [serializeCV, List.length_cons] at hlen
        omega
      simp [serializeCV, deserCV, ih v hWF' hlen' rest, canon]
    | listCV l =>
      obtain ⟨h1, h2⟩ : l.length < 2 ^ 32 ∧ WFList l = true := by
        simpa [WF, Bool.and_eq_true, decide_eq_true_eq] using hWF
      have h256 : l.length < 256 ^ 4 := by
        have he : (256 : Nat) ^ 4 = 2 ^ 32 := by norm_num
        omega
      have hm : ∀ v ∈ l, (serializeCV v).length < fuel := by
        intro v hv
        have hle := length_le_serializeList hv
        simp only [serializeCV, List.length_cons, List.length_append,
          natToBE_length] at hlen
        omega
      have hloop :=
        deserLoop_correct (deserCV fuel) l
          (fun v hv r => ih v ((WFList_iff l).mp h2 v hv) (hm v hv) r) rest
      simp [serializeCV, deserCV,
        readN_exact_of_length (serializeList l ++ rest) (natToBE_length 4 l.length),
        bytesToNat_natToBE_of_lt h256, hloop, canon]
    | tupleCV es =>
      obtain ⟨h1, h2⟩ : es.length < 2 ^ 32 ∧ WFEntries es = true := by
        simpa [WF, Bool.and_eq_true, decide_eq_true_eq] using hWF
      have h256 : es.length < 256 ^ 4 := by
        have he : (256 : Nat) ^ 4 = 2 ^ 32 := by norm_num
        omega
      have hm : ∀ e ∈ sortEntries es, (serializeCV e.2).length < fuel := by
        intro e he
        have hle := length_le_entriesBytes he
        simp only [serializeCV, List.length_cons, List.length_append, natToBE_length,
          flattenSortedEntries_serializeEntryValues] at hlen
        omega
      have hd : ∀ e ∈ sortEntries es, ∀ r,
          deserCV fuel (serializeCV e.2 ++ r) = some (canon e.2, r) := by
        intro e he r
        exact ih e.2
          ((WFEntries_iff es).mp h2 e (mem_of_mem_sortEntries he)).2.2 (hm e he) r
      have hloop := deserEntriesLoop_correct (deserCV fuel) (sortEntries es) hd rest
      rw [sortEntries_length] at hloop
      simp [serializeCV, deserCV, flattenSortedEntries_serializeEntryValues,
        readN_exact_of_length (entriesBytes (sortEntries es) ++ rest)
          (natToBE_length 4 es.length),
        bytesToNat_natToBE_of_lt h256, hloop, canon, canonEntries_sortEntries]
    | stringAsciiCV s =>
      obtain ⟨h1, h2⟩ : s.length < 2 ^ 32 ∧ s.all (· < 128) = true := by
        simpa [WF, Bool.and_eq_true, decide_eq_true_eq] using hWF
      have h256 : s.length < 256 ^ 4 := by
        have he : (256 : Nat) ^ 4 = 2 ^ 32 := by norm_num
        omega
      simp [serializeCV, deserCV,
        readN_exact_of_length (s ++ rest) (natToBE_length 4 s.length),
        bytesToNat_natToBE_of_lt h256, readN_exact s rest, h2, canon]
      intro x hx
      simpa using List.all_eq_true.mp h2 x hx
    | stringUtf8CV s =>
      obtain ⟨h1, -⟩ : s.length < 2 ^ 32 ∧ s.all (· < 256) = true := by
        simpa [WF, Bool.and_eq_true, decide_eq_true_eq] using hWF
      have h256 : s.length < 256 ^ 4 := by
        have he : (256 : Nat) ^ 4 = 2 ^ 32 := by norm_num
        omega
      simp [serializeCV, deserCV,
        readN_exact_of_length (s ++ rest) (natToBE_length 4 s.length),
        bytesToNat_natToBE_of_lt h256, readN_exact s rest, canon]

theorem canon_idem (v : ClarityValue) : canon (canon v) = canon v := by
  suffices key : ∀ n (v : ClarityValue), sizeOf v < n → canon (canon v) = canon v from
    key (sizeOf v + 1) v (Nat.lt_succ_self _)
  intro n
  induction n with
  | zero => intro v hv; exact absurd hv (Nat.not_lt_zero _)
  | succ n ih =>
    intro v hv
    cases v with
    | intCV m => simp [canon]
    | uintCV m => simp [canon]
    | bufferCV bytes => simp [canon]
    | trueCV => simp [canon]
    | falseCV => simp [canon]
    | standardPrincipalCV a b => simp [canon]
    | contractPrincipalCV a b c => simp [canon]
    | noneCV => simp [canon]
    | stringAsciiCV s => simp [canon]
    | stringUtf8CV s => simp [canon]
    | responseOkCV w =>
      have hs : sizeOf w < n := by simp at hv; omega
      simp [canon, ih w hs]
    | responseErrorCV w =>
      have hs : sizeOf w < n := by simp at hv; omega
      simp [canon, ih w hs]
    | someCV w =>
      have hs : sizeOf w < n := by simp at hv; omega
      simp [canon, ih w hs]
    | listCV l =>
      have hs : ∀ w ∈ l, sizeOf w < n := by
        intro w hw
        have h1 := List.sizeOf_lt_of_mem hw
        simp at hv
        omega
      simp only [canon, canonList_eq_map, List.map_map]
      exact congrArg _ (List.map_congr_left fun w hw => by
        simpa using ih w (hs w hw))
    | tupleCV es =>
      have hs : ∀ e ∈ canonEntries es, canon e.2 = e.2 := by
        intro e he
        rw [canonEntries_eq_map] at he
        obtain ⟨a, ha, rfl⟩ := List.mem_map.mp he
        have h1 := List.sizeOf_lt_of_mem ha
        have h2 : sizeOf a.2 < sizeOf a := by
          cases a with
          | mk k w => simp
        have h3 : sizeOf a.2 < n := by simp at hv; omega
        exact ih a.2 h3
      simp only [canon]
      congr 1
      have hsorted : List.Sorted keyFstLe (sortEntries (canonEntries es)) :=
        List.sorted_insertionSort keyFstLe (canonEntries es)
      have hid : canonEntries (sortEntries (canonEntries es)) =
          sortEntries (canonEntries es) := by
        rw [canonEntries_eq_map]
        have hfix : ∀ e ∈ sortEntries (canonEntries es),
            (fun e : List Nat × ClarityValue => (e.1, canon e.2)) e = e := by
          intro e he
          have := hs e (mem_of_mem_sortEntries he)
          cases e with
          | mk k w => simp_all
        calc (sortEntries (canonEntries es)).map (fun e => (e.1, canon e.2))
            = (sortEntries (canonEntries es)).map id :=
              List.map_congr_left fun e he => hfix e he
          _ = sortEntries (canonEntries es) := List.map_id _
      rw [hid]
      exact List.Sorted.insertionSort_eq hsorted

theorem keyLe_antisymm : ∀ a b : List Nat, keyLe a b = true → keyLe b a = true → a = b := by
  intro a
  induction a with
  | nil =>
    intro b _ hba
    cases b with
    | nil => rfl
    | cons x xs => simp [keyLe] at hba
  | cons x xs ih =>
    intro b hab hba
    cases b with
    | nil => simp [keyLe] at hab
    | cons y ys =>
      simp only [keyLe] at hab hba
      rcases Nat.lt_trichotomy x y with h | h | h
      · rw [if_neg (Nat.lt_asymm h), if_pos h] at hba
        exact absurd hba (by simp)
      · subst h
        rw [if_neg (Nat.lt_irrefl x), if_neg (Nat.lt_irrefl x)] at hab hba
        rw [ih ys hab hba]
      · rw [if_neg (Nat.lt_asymm h), if_pos h] at hab
        exact absurd hab (by simp)

/-- Two key-sorted entry lists that are permutations of each other and have
pairwise-distinct keys are equal. -/
theorem eq_of_perm_sorted_nodup_keys :
    ∀ {l₁ l₂ : List (List Nat × ClarityValue)}, l₁.Perm l₂ →
      List.Sorted keyFstLe l₁ → List.Sorted keyFstLe l₂ →
      (l₁.map Prod.fst).Nodup → l₁ = l₂ := by
  intro l₁
  induction l₁ with
  | nil => intro l₂ hp _ _ _; exact hp.nil_eq
  | cons a t₁ ih =>
    intro l₂ hp hs₁ hs₂ hnd
    cases l₂ with
    | nil => exact absurd hp.symm.nil_eq (by simp)
    | cons b t₂ =>
      have hab : a = b := by
        by_contra hne
        have ha2 : a ∈ t₂ := by
          have := hp.subset (List.mem_cons_self a t₁)
          rcases List.mem_cons.mp this with h | h
          · exact absurd h hne
          · exact h
        have hb1 : b ∈ t₁ := by
          have := hp.symm.subset (List.mem_cons_self b t₂)
          rcases List.mem_cons.mp this with h | h
          · exact absurd h.symm hne
          · exact h
        have h1 : keyFstLe a b := List.rel_of_sorted_cons hs₁ b hb1
        have h2 : keyFstLe b a := List.rel_of_sorted_cons hs₂ a ha2
        have hkeys : a.1 = b.1 := keyLe_antisymm a.1 b.1 h1 h2
        have : a.1 ∈ t₁.map Prod.fst := by
          rw [hkeys]
          exact List.mem_map_of_mem Prod.fst hb1
        simp only [List.map_cons, List.nodup_cons] at hnd
        exact hnd.1 this
      subst hab
      have hp' : t₁.Perm t₂ := hp.cons_inv
      have hnd' : (t₁.map Prod.fst).Nodup := by
        simp only [List.map_cons, List.nodup_cons] at hnd
        exact hnd.2
      rw [ih hp' hs₁.of_cons hs₂.of_cons hnd']

/-- The byte-lexicographic key order, as a relation on keys. -/
def keyOrder (a b : List Nat) : Prop :=
  keyLe a b = true

theorem deserializeCV_serializeCV (v : ClarityValue) (h : WF v = true) :
    deserializeCV (serializeCV v) = some (canon v, []) := by
  unfold deserializeCV
  calc deserCV ((serializeCV v).length + 1) (serializeCV v)
      = deserCV ((serializeCV v).length + 1) (serializeCV v ++ []) := by
        rw [List.append_nil]
    _ = some (canon v, []) :=
        deserCV_serializeCV _ v h (Nat.lt_succ_self _) []

/-- C1. For every constructible (well-formed) ClarityValue `v`, at any
nesting depth, deserializing the serialization of `v` succeeds, consumes the
whole input, and yields a value structurally equal to `v` under the equality
that compares tuples in canonical sorted key order (two values are so equal
exactly when their canonical forms coincide). -/
theorem clarity_roundtrip (v : ClarityValue) (h : WF v = true) :
    ∃ d, deserializeCV (serializeCV v) = some (d, []) ∧ canon d = canon v :=
  ⟨canon v, deserializeCV_serializeCV v h, canon_idem v⟩

/-- A depth-5 nested value exercising tuples, optionals, lists, responses
and strings. -/
def roundtripExample : ClarityValue :=
  .tupleCV
    [([0x62], .falseCV),
     ([0x61], .someCV (.listCV
        [.intCV (-3), .uintCV 7,
         .responseOkCV (.tupleCV
            [([0x63], .stringAsciiCV [0x68, 0x69]),
             ([0x62, 0x63], .bufferCV [0xde, 0xad])])]))]

theorem clarity_roundtrip_witness :
    ∃ d, deserializeCV (serializeCV roundtripExample) = some (d, []) ∧
      canon d = canon roundtripExample :=
  clarity_roundtrip roundtripExample (by decide)

/-- C2. The serializer produces the fixed test vectors: `intCV 1` and
`intCV (-1)` as 16-byte big-endian two's complement behind tag 0x00,
`trueCV` as the bare tag 0x03, and a buffer as tag 0x02, a 4-byte big-endian
length, then the raw bytes. -/
theorem serialization_test_vectors :
    serializeCV (.intCV 1) =
      [0x00, 0x00, 0x00, 0x00, 0x00, 0x00, 0x00, 0x00, 0x00,
       0x00, 0x00, 0x00, 0x00, 0x00, 0x00, 0x00, 0x01] ∧
    serializeCV (.intCV (-1)) =
      [0x00, 0xff, 0xff, 0xff, 0xff, 0xff, 0xff, 0xff, 0xff,
       0xff, 0xff, 0xff, 0xff, 0xff, 0xff, 0xff, 0xff] ∧
    serializeCV .trueCV = [0x03] ∧
    serializeCV (.bufferCV [0xde, 0xad, 0xbe, 0xef]) =
      [0x02, 0x00, 0x00, 0x00, 0x04, 0xde, 0xad, 0xbe, 0xef] := by
  refine ⟨?_, ?_, ?_, ?_⟩ <;> decide

/-- C3. Tuple serialization is canonicalizing: two tuples whose entry lists
are permutations of each other (with distinct keys, as JavaScript object
keys are) serialize to byte-identical output, and the deserialized form of a
well-formed tuple carries its keys in byte-lexicographic order. -/
theorem tuple_serialization_canonicalizes
    (es₁ es₂ : List (List Nat × ClarityValue))
    (hperm : es₁.Perm es₂) (hnd : (es₁.map Prod.fst).Nodup) :
    serializeCV (.tupleCV es₁) = serializeCV (.tupleCV es₂) ∧
    (WF (.tupleCV es₁) = true →
      deserializeCV (serializeCV (.tupleCV es₁)) =
        some (.tupleCV (sortEntries (canonEntries es₁)), []) ∧
      List.Sorted keyOrder ((sortEntries (canonEntries es₁)).map Prod.fst)) := by
  constructor
  · have hsort : sortEntries es₁ = sortEntries es₂ := by
      apply eq_of_perm_sorted_nodup_keys
      · exact ((List.perm_insertionSort keyFstLe es₁).trans hperm).trans
          (List.perm_insertionSort keyFstLe es₂).symm
      · exact List.sorted_insertionSort keyFstLe es₁
      · exact List.sorted_insertionSort keyFstLe es₂
      · exact (((List.perm_insertionSort keyFstLe es₁).map Prod.fst).nodup_iff).mpr hnd
    simp only [serializeCV, flattenSortedEntries_serializeEntryValues, hsort,
      hperm.length_eq]
  · intro hWF
    constructor
    · rw [deserializeCV_serializeCV (.tupleCV es₁) hWF]
      simp [canon]
    · have hsorted : List.Sorted keyFstLe (sortEntries (canonEntries es₁)) :=
        List.sorted_insertionSort keyFstLe (canonEntries es₁)
      rw [List.Sorted, List.pairwise_map]
      exact hsorted

theorem tuple_canonicalization_witness :
    serializeCV (.tupleCV [([0x62], .falseCV), ([0x61], .trueCV)]) =
      serializeCV (.tupleCV [([0x61], .trueCV), ([0x62], .falseCV)]) ∧
    (WF (.tupleCV [([0x62], .falseCV), ([0x61], .trueCV)]) = true →
      deserializeCV (serializeCV (.tupleCV [([0x62], .falseCV), ([0x61], .trueCV)])) =
        some (.tupleCV (sortEntries (canonEntries [([0x62], .falseCV), ([0x61], .trueCV)])),
          []) ∧
      List.Sorted keyOrder
        ((sortEntries (canonEntries [([0x62], .falseCV), ([0x61], .trueCV)])).map
          Prod.fst)) :=
  tuple_serialization_canonicalizes _ _ (List.Perm.swap _ _ _) (by decide)

/-! ## BNS claim theorems -/

theorem utf8Bytes_append (a b : String) :
    utf8Bytes (a ++ b) = utf8Bytes a ++ utf8Bytes b := by
  unfold utf8Bytes
  rw [String.data_append, List.map_append, List.flatten_append]

/-- The SHA-256 implementation reproduces the standard `"abc"` vector. -/
theorem sha256_abc_vector :
    sha256 [0x61, 0x62, 0x63] =
      [0xba, 0x78, 0x16, 0xbf, 0x8f, 0x01, 0xcf, 0xea, 0x41, 0x41, 0x40, 0xde,
       0x5d, 0xae, 0x22, 0x23, 0xb0, 0x03, 0x61, 0xa3, 0x96, 0x17, 0x7a, 0x9c,
       0xb4, 0x10, 0xff, 0x61, 0xf2, 0x00, 0x15, 0xad] := by decide

/-- The RIPEMD-160 implementation reproduces the standard `"abc"` vector. -/
theorem ripemd160_abc_vector :
    ripemd160 [0x61, 0x62, 0x63] =
      [0x8e, 0xb2, 0x08, 0xf7, 0xe0, 0x5d, 0x98, 0x7a, 0x9b, 0x04, 0x4a, 0x8e,
       0x98, 0xc6, 0xb0, 0x87, 0xf1, 0x5a, 0x0b, 0xfc] := by decide

/-- The double hash reproduces the known `hash160` of the empty string. -/
theorem hash160_empty_vector :
    hash160 [] =
      [0xb4, 0x72, 0xa2, 0x66, 0xd0, 0xbd, 0x89, 0xc1, 0x37, 0x06, 0xa4, 0x13,
       0x2c, 0xcf, 0xb1, 0x6f, 0x7c, 0x3b, 0x9f, 0xcb] := by decide

/-- C4. The preorder commitment computed by `buildPreorderNamespaceTx` and
`buildPreorderNameTx` is the double hash — SHA-256 followed by RIPEMD-160
(`hash160`) — of the concatenation of the plaintext identifier bytes and the
salt bytes; being a pure function of that pair, identical identifier and
salt always yield a byte-identical commitment. -/
theorem preorder_commitment_hash (identifier salt : String) (stx : Nat)
    (pk : String) (net : StacksNetwork) (tx : UnsignedContractCall) :
    (buildPreorderNamespaceTx identifier salt stx pk net = .ok tx →
      tx.functionArgs =
        [.bufferCV (ripemd160 (sha256 (utf8Bytes identifier ++ utf8Bytes salt))),
         .uintCV stx]) ∧
    (buildPreorderNameTx identifier salt stx pk net = .ok tx →
      tx.functionArgs =
        [.bufferCV (ripemd160 (sha256 (utf8Bytes identifier ++ utf8Bytes salt))),
         .uintCV stx]) := by
  constructor
  · intro h
    unfold buildPreorderNamespaceTx makeBnsContractCall at h
    dsimp only at h
    cases hg : getBnsContractAddress net with
    | error e => rw [hg] at h; simp [Except.map] at h
    | ok a =>
      rw [hg] at h
      simp only [Except.map, Except.ok.injEq] at h
      rw [← h]
      simp [hash160, utf8Bytes_append]
  · intro h
    unfold buildPreorderNameTx makeBnsContractCall at h
    dsimp only at h
    by_cases hsub : strTruthy (decodeFQN identifier).subdomain = true
    · rw [if_pos hsub] at h
      simp at h
    · rw [if_neg hsub] at h
      cases hg : getBnsContractAddress net with
      | error e => rw [hg] at h; simp [Except.map] at h
      | ok a =>
        rw [hg] at h
        simp only [Except.map, Except.ok.injEq] at h
        rw [← h]
        simp [hash160, utf8Bytes_append]

/-- The transaction built by the namespace preorder of identifier `"id"` and
salt `"salt"` on mainnet, with its concretely computed commitment bytes. -/
def preorderWitnessTx : UnsignedContractCall :=
  { contractAddress := bnsContractAddressMainnet
    contractName := "bns"
    functionName := "namespace-preorder"
    functionArgs :=
      [.bufferCV [0x98, 0xe4, 0xef, 0xd8, 0x1e, 0x66, 0xcb, 0x96, 0xb2, 0x76,
        0xd8, 0xb3, 0x88, 0xda, 0xa5, 0x7b, 0x7b, 0xdc, 0xa9, 0x90],
       .uintCV 3]
    publicKey := "pk"
    attachment := none }

theorem preorder_commitment_hash_witness :
    preorderWitnessTx.functionArgs =
      [.bufferCV (ripemd160 (sha256 (utf8Bytes "id" ++ utf8Bytes "salt"))),
       .uintCV 3] :=
  (preorder_commitment_hash "id" "salt" 3 "pk" { chainId := chainIdMainnet }
    preorderWitnessTx).1 (by rfl)

/-- C5. Every name-operation builder that takes a fully qualified name —
preorder, register, update, transfer, revoke, renew, and the canRegisterName
and getNamePrice queries — fails with its validation error whenever the name
carries a (truthy) subdomain qualifier, whatever the remaining options. -/
theorem subdomain_rejected (fqn : String) (h : hasSubdomain fqn = true) :
    (∀ salt stx pk net, buildPreorderNameTx fqn salt stx pk net =
      .error "Cannot preorder a subdomain using preorderName()") ∧
    (∀ salt zf pk net, buildRegisterNameTx fqn salt zf pk net =
      .error "Cannot register a subdomain using registerName()") ∧
    (∀ zf pk net, buildUpdateNameTx fqn zf pk net =
      .error "Cannot update a subdomain using updateName()") ∧
    (∀ owner zf pk net, buildTransferNameTx fqn owner zf pk net =
      .error "Cannot transfer a subdomain using transferName()") ∧
    (∀ pk net, buildRevokeNameTx fqn pk net =
      .error "Cannot revoke a subdomain using revokeName()") ∧
    (∀ stx owner zf pk net, buildRenewNameTx fqn stx owner zf pk net =
      .error "Cannot renew a subdomain using renewName()") ∧
    (∀ addr net, canRegisterNameQuery fqn addr net =
      .error "Cannot register a subdomain using registerName") ∧
    (∀ addr net, getNamePriceQuery fqn addr net =
      .error "Cannot get subdomain name price") := by
  have h' : strTruthy (decodeFQN fqn).subdomain = true := h
  refine ⟨?_, ?_, ?_, ?_, ?_, ?_, ?_, ?_⟩ <;> intros <;>
    simp [buildPreorderNameTx, buildRegisterNameTx, buildUpdateNameTx,
      buildTransferNameTx, buildRevokeNameTx, buildRenewNameTx,
      canRegisterNameQuery, getNamePriceQuery, h']

theorem subdomain_rejected_witness :
    buildPreorderNameTx "sub.name.id" "salt" 1 "pk" { chainId := 1 } =
      .error "Cannot preorder a subdomain using preorderName()" ∧
    buildRegisterNameTx "sub.name.id" "salt" "zf" "pk" { chainId := 1 } =
      .error "Cannot register a subdomain using registerName()" ∧
    buildUpdateNameTx "sub.name.id" "zf" "pk" { chainId := 1 } =
      .error "Cannot update a subdomain using updateName()" ∧
    buildTransferNameTx "sub.name.id" "SPX" none "pk" { chainId := 1 } =
      .error "Cannot transfer a subdomain using transferName()" ∧
    buildRevokeNameTx "sub.name.id" "pk" { chainId := 1 } =
      .error "Cannot revoke a subdomain using revokeName()" ∧
    buildRenewNameTx "sub.name.id" 1 none none "pk" { chainId := 1 } =
      .error "Cannot renew a subdomain using renewName()" ∧
    canRegisterNameQuery "sub.name.id" "SPX" { chainId := 1 } =
      .error "Cannot register a subdomain using registerName" ∧
    getNamePriceQuery "sub.name.id" "SPX" { chainId := 1 } =
      .error "Cannot get subdomain name price" := by
  have h := subdomain_rejected "sub.name.id" (by decide)
  exact ⟨h.1 "salt" 1 "pk" _, h.2.1 "salt" "zf" "pk" _, h.2.2.1 "zf" "pk" _,
    h.2.2.2.1 "SPX" none "pk" _, h.2.2.2.2.1 "pk" _, h.2.2.2.2.2.1 1 none none "pk" _,
    h.2.2.2.2.2.2.1 "SPX" _, h.2.2.2.2.2.2.2 "SPX" _⟩

/-- C6. The registry contract address is a pure function of the chain
identifier: the mainnet chain ID resolves to the fixed mainnet address, the
testnet chain ID to the fixed testnet address, and every other chain ID
fails rather than defaulting. -/
theorem bns_contract_address_resolution :
    getBnsContractAddress { chainId := chainIdMainnet } = .ok bnsContractAddressMainnet ∧
    getBnsContractAddress { chainId := chainIdTestnet } = .ok bnsContractAddressTestnet ∧
    ∀ c : Nat, c ≠ chainIdMainnet → c ≠ chainIdTestnet →
      getBnsContractAddress { chainId := c } =
        .error ("Unexpected ChainID: " ++ toString c) := by
  refine ⟨rfl, rfl, ?_⟩
  intro c h1 h2
  simp [getBnsContractAddress, h1, h2]

theorem bns_contract_address_resolution_witness :
    getBnsContractAddress { chainId := 5 } = .error ("Unexpected ChainID: " ++ toString 5) :=
  bns_contract_address_resolution.2.2 5 (by decide) (by decide)

/-- C7 counterexample: `canRegisterName` does not propagate a contract-level
Response-Err as an error rendered with `cvToString`; its response handler
resolves to the default result `false` (its result is a plain boolean, so no
error can be raised): on the error response `(err 1)` it returns `false`. -/
theorem canRegisterName_error_default_counterexample :
    canRegisterNameHandler (.responseErrorCV (.intCV 1)) = false := rfl

/-- C7, amended. For `getNamespacePrice` and `getNamePrice`, a contract-level
Response-Err makes the operation fail with the `cvToString` rendering of the
decoded error value; `canRegisterName`, by contrast, resolves to `false` on a
Response-Err rather than propagating an error. -/
theorem error_responses_propagate_cvToString (v : ClarityValue) :
    getNamespacePriceHandler (.responseErrorCV v) = .error (cvToString v) ∧
    getNamePriceHandler (.responseErrorCV v) = .error (cvToString v) ∧
    canRegisterNameHandler (.responseErrorCV v) = false :=
  ⟨rfl, rfl, rfl⟩

/-! ## Session store claim -/

theorem mkInstanceDataStore_isSome (opts : Option SessionOptions) :
    (mkInstanceDataStore opts).sessionData.isSome = true := by
  unfold mkInstanceDataStore
  cases opts with
  | none => rfl
  | some o =>
    simp only [setSessionData]
    cases hsd : sessionIdentity (sessionDataFromOptions o) <;> simp [hsd]

theorem applyStoreOps_isSome (ops : List StoreOp) :
    ∀ st : InstanceDataStore, st.sessionData.isSome = true →
      (applyStoreOps st ops).sessionData.isSome = true := by
  induction ops with
  | nil => intro st h; exact h
  | cons op ops ih =>
    intro st h
    have hstep : (applyStoreOp st op).sessionData.isSome = true := by
      cases op <;> simp [applyStoreOp, setSessionData, deleteSessionData,
        setSessionIdentityChangeCallback, h]
    exact ih _ hstep

/-- C8. An `InstanceDataStore` never loses its session: the constructor
installs an empty `SessionData` when none exists, every reachable state
keeps a stored session so `getSessionData` never throws, `deleteSessionData`
replaces the session with a fresh empty one, and `setSessionData` and
`deleteSessionData` always return `true`. -/
theorem instance_data_store_invariants :
    (∀ opts ops, ∃ sd,
        getSessionData (applyStoreOps (mkInstanceDataStore opts) ops) = .ok sd) ∧
    (mkInstanceDataStore none).sessionData = some emptySessionData ∧
    (∀ st, (deleteSessionData st).1.sessionData = some emptySessionData ∧
      (deleteSessionData st).2 = true) ∧
    (∀ st s, (setSessionData st s).2 = true) := by
  refine ⟨?_, rfl, fun st => ⟨rfl, rfl⟩, fun st s => rfl⟩
  intro opts ops
  have h := applyStoreOps_isSome ops (mkInstanceDataStore opts) (mkInstanceDataStore_isSome opts)
  cases hsd : (applyStoreOps (mkInstanceDataStore opts) ops).sessionData with
  | none => rw [hsd] at h; simp at h
  | some sd => exact ⟨sd, by simp [getSessionData, hsd]⟩

/-! ## Zone-file claim -/

theorem isPrefixOf_trans_chars : ∀ a b l : List Char,
    a.isPrefixOf b = true → b.isPrefixOf l = true → a.isPrefixOf l = true := by
  intro a
  induction a with
  | nil => intro b l _ _; cases l <;> rfl
  | cons x xs ih =>
    intro b l hab hbl
    cases b with
    | nil => simp [List.isPrefixOf] at hab
    | cons y ys =>
      cases l with
      | nil => simp [List.isPrefixOf] at hbl
      | cons z zs =>
        simp only [List.isPrefixOf, Bool.and_eq_true, beq_iff_eq] at hab hbl ⊢
        obtain ⟨rfl, hab⟩ := hab
        obtain ⟨rfl, hbl⟩ := hbl
        exact ⟨rfl, ih ys zs hab hbl⟩

theorem strStartsWith_https_http (t : String) (h : strStartsWith t "https" = true) :
    strStartsWith t "http" = true := by
  unfold strStartsWith at h ⊢
  exact isPrefixOf_trans_chars _ _ _ (by rfl) h

/-- C9. `getTokenFileUrl` returns `null` exactly when the zone file has no
`uri` property, the `uri` is not an array, the array is empty, or the first
record has no `target`; otherwise it returns the first record's target,
unchanged when it starts with `http` (hence also `https`), and prefixed with
`https://` otherwise. -/
theorem getTokenFileUrl_spec (z : ZoneFileUri) :
    (getTokenFileUrl z = none ↔
      z = .absent ∨ z = .notArray ∨ z = .arr [] ∨
      ∃ rs, z = .arr ({ target := none } :: rs)) ∧
    (∀ t rs, z = .arr ({ target := some t } :: rs) →
      getTokenFileUrl z = some (if strStartsWith t "http" then t else "https://" ++ t)) := by
  constructor
  · cases z with
    | absent => simp [getTokenFileUrl]
    | notArray => simp [getTokenFileUrl]
    | arr records =>
      cases records with
      | nil => simp [getTokenFileUrl]
      | cons r rs =>
        cases r with
        | mk tgt =>
          cases tgt with
          | none => simp [getTokenFileUrl]
          | some t =>
            simp only [getTokenFileUrl]
            constructor
            · intro hcontra
              split_ifs at hcontra
            · intro hcases
              rcases hcases with h | h | h | ⟨rs', h⟩ <;> simp_all
  · intro t rs hz
    subst hz
    simp only [getTokenFileUrl]
    by_cases h5 : strStartsWith t "https" = true
    · rw [if_pos h5, if_pos (strStartsWith_https_http t h5)]
    · rw [if_neg h5]
      by_cases h4 : strStartsWith t "http" = true
      · rw [if_pos h4, if_pos h4]
      · rw [if_neg h4, if_neg h4]

theorem getTokenFileUrl_spec_witness :
    getTokenFileUrl (.arr [{ target := some "example.com" }]) =
      some (if strStartsWith "example.com" "http" then "example.com"
            else "https://" ++ "example.com") :=
  (getTokenFileUrl_spec (.arr [{ target := some "example.com" }])).2
    "example.com" [] rfl

/-! ## Zonefile-option claims -/

/-- C10 counterexample: the zonefile option is supplied — as the empty
string — yet the built transfer carries no attachment and only the three
base arguments, because the source tests JavaScript truthiness
(`if (zonefile)`), not presence. This refutes "attachment if and only if
the zonefile option is supplied". -/
theorem transfer_empty_zonefile_counterexample :
    buildTransferNameTx "name.id" "SPNEWOWNER" (some "") "pk"
        { chainId := chainIdMainnet } =
      .ok { contractAddress := bnsContractAddressMainnet
            contractName := "bns"
            functionName := "name-transfer"
            functionArgs := [bufferCVFromString "id", bufferCVFromString "name",
              bufferCVFromString "SPNEWOWNER"]
            publicKey := "pk"
            attachment := none } := rfl

/-- C10, amended. For `buildTransferNameTx` and `buildRenewNameTx` the
optional zonefile controls both the argument list and the attachment, with
"supplied" read as JavaScript-truthy (present and non-empty): the argument
list carries a trailing zonefile-hash argument and the transaction carries
the zonefile bytes as attachment if and only if the zonefile option is
truthy; otherwise the attachment is `undefined` and only the other
arguments are passed. -/
theorem zonefile_truthy_optionality
    (fqn owner pk : String) (zonefile newOwner : Option String)
    (stx : Nat) (net : StacksNetwork) (tx tx₂ : UnsignedContractCall) :
    (buildTransferNameTx fqn owner zonefile pk net = .ok tx →
      tx.functionArgs =
        [bufferCVFromString (decodeFQN fqn).nameSpace,
         bufferCVFromString (decodeFQN fqn).name,
         bufferCVFromString owner] ++
        (if strTruthy zonefile then [ClarityValue.bufferCV (getZonefileHash (zonefile.getD ""))]
         else []) ∧
      tx.attachment =
        (if strTruthy zonefile then some (utf8Bytes (zonefile.getD "")) else none) ∧
      (tx.attachment ≠ none ↔ strTruthy zonefile = true)) ∧
    (buildRenewNameTx fqn stx newOwner zonefile pk net = .ok tx₂ →
      tx₂.functionArgs =
        [bufferCVFromString (decodeFQN fqn).nameSpace,
         bufferCVFromString (decodeFQN fqn).name,
         ClarityValue.uintCV stx] ++
        (if strTruthy newOwner then [bufferCVFromString (newOwner.getD "")] else []) ++
        (if strTruthy zonefile then [ClarityValue.bufferCV (getZonefileHash (zonefile.getD ""))]
         else []) ∧
      tx₂.attachment =
        (if strTruthy zonefile then some (utf8Bytes (zonefile.getD "")) else none) ∧
      (tx₂.attachment ≠ none ↔ strTruthy zonefile = true)) := by
  constructor
  · intro h
    unfold buildTransferNameTx makeBnsContractCall at h
    dsimp only at h
    by_cases hsub : strTruthy (decodeFQN fqn).subdomain = true
    · rw [if_pos hsub] at h
      simp at h
    · rw [if_neg hsub] at h
      cases hg : getBnsContractAddress net with
      | error e => rw [hg] at h; simp [Except.map] at h
      | ok a =>
        rw [hg] at h
        simp only [Except.map, Except.ok.injEq] at h
        rw [← h]
        refine ⟨rfl, rfl, ?_⟩
        by_cases hz : strTruthy zonefile = true <;> simp [hz]
  · intro h
    unfold buildRenewNameTx makeBnsContractCall at h
    dsimp only at h
    by_cases hsub : strTruthy (decodeFQN fqn).subdomain = true
    · rw [if_pos hsub] at h
      simp at h
    · rw [if_neg hsub] at h
      cases hg : getBnsContractAddress net with
      | error e => rw [hg] at h; simp [Except.map] at h
      | ok a =>
        rw [hg] at h
        simp only [Except.map, Except.ok.injEq] at h
        rw [← h]
        refine ⟨rfl, rfl, ?_⟩
        by_cases hz : strTruthy zonefile = true <;> simp [hz]

/-- The transfer built with the truthy zonefile `"zf"` on mainnet, with the
concretely computed zonefile hash and attachment bytes. -/
def transferWitnessTx : UnsignedContractCall :=
  { contractAddress := bnsContractAddressMainnet
    contractName := "bns"
    functionName := "name-transfer"
    functionArgs :=
      [bufferCVFromString "id", bufferCVFromString "name", bufferCVFromString "SPX",
       .bufferCV [0x45, 0x0f, 0x5b, 0xcb, 0xe6, 0x98, 0x93, 0x6e, 0x5a, 0x27,
         0xbc, 0xb3, 0xe2, 0xe0, 0x00, 0xbe, 0xdf, 0xb0, 0x87, 0xa3]]
    publicKey := "pk"
    attachment := some [0x7a, 0x66] }

theorem zonefile_truthy_optionality_witness :
    transferWitnessTx.functionArgs =
      [bufferCVFromString (decodeFQN "name.id").nameSpace,
       bufferCVFromString (decodeFQN "name.id").name,
       bufferCVFromString "SPX"] ++
      (if strTruthy (some "zf") then
        [ClarityValue.bufferCV (getZonefileHash ((some "zf").getD ""))]
       else []) ∧
    transferWitnessTx.attachment =
      (if strTruthy (some "zf") then some (utf8Bytes ((some "zf").getD "")) else none) ∧
    (transferWitnessTx.attachment ≠ none ↔ strTruthy (some "zf") = true) :=
  (zonefile_truthy_optionality "name.id" "SPX" "pk" (some "zf") none 0
    { chainId := chainIdMainnet } transferWitnessTx transferWitnessTx).1 (by rfl)

end StacksJs
